import Mathlib

/-! # Dynamic markings (`src/engraving/libmscore/dynamic.cpp`)

A shallow embedding of the `Dynamic` element of the engraving library: the
catalog `dynList`, the velocity model, kind resolution from text, the
property dispatch, the persistence codec, editing, horizontal layout and
vertical autoplacement.

Conventions of the embedding:
* C++ `int` fields are `Int` (no arithmetic is performed on them here);
* the value of a `double` (`qreal`) is a rational `ℚ`; where the code
  computes in `double` and the result depends on rounding (the length of the
  velocity change, autoplacement), each operation rounds its exact result to
  the nearest `double` (`roundDouble`); the formula of the horizontal layout
  is stated in exact arithmetic;
* the element is a record that is passed and returned explicitly; a member
  function that mutates `this` returns the updated record.
-/

namespace Ms

/-! ## Types declared in headers outside `dynamic.cpp` -/

/-- Modelled from the spec: the closed enumeration `DynamicType` (declared in
`types.h`, which is not part of the sources at hand). The constructors are
listed in the order of the rows of `dynList`, which is indexed by
`int(dynamicType())`. -/
inductive DynamicType where
  | OTHER | PPPPPP | PPPPP | PPPP | PPP | PP | P
  | MP | MF
  | F | FF | FFF | FFFF | FFFFF | FFFFFF
  | FP | PF
  | SF | SFZ | SFF | SFFZ | SFP | SFPP
  | RFZ | RF | FZ
  | M | R | S | Z | N
  deriving DecidableEq, Repr, Inhabited

/-- The cast `int(t)` of a dynamic type. -/
def DynamicType.toNat : DynamicType → Nat
  | .OTHER => 0 | .PPPPPP => 1 | .PPPPP => 2 | .PPPP => 3 | .PPP => 4 | .PP => 5 | .P => 6
  | .MP => 7 | .MF => 8
  | .F => 9 | .FF => 10 | .FFF => 11 | .FFFF => 12 | .FFFFF => 13 | .FFFFFF => 14
  | .FP => 15 | .PF => 16
  | .SF => 17 | .SFZ => 18 | .SFF => 19 | .SFFZ => 20 | .SFP => 21 | .SFPP => 22
  | .RFZ => 23 | .RF => 24 | .FZ => 25
  | .M => 26 | .R => 27 | .S => 28 | .Z => 29 | .N => 30

/-- The cast `DynamicType(i)` for an index `i` of `dynList` (indices past the
last enumerator do not occur: the loop that casts runs over `0 .. n-1`). -/
def DynamicType.ofIndex : Nat → DynamicType
  | 0 => .OTHER | 1 => .PPPPPP | 2 => .PPPPP | 3 => .PPPP | 4 => .PPP | 5 => .PP | 6 => .P
  | 7 => .MP | 8 => .MF
  | 9 => .F | 10 => .FF | 11 => .FFF | 12 => .FFFF | 13 => .FFFFF | 14 => .FFFFFF
  | 15 => .FP | 16 => .PF
  | 17 => .SF | 18 => .SFZ | 19 => .SFF | 20 => .SFFZ | 21 => .SFP | 22 => .SFPP
  | 23 => .RFZ | 24 => .RF | 25 => .FZ
  | 26 => .M | 27 => .R | 28 => .S | 29 => .Z | _ => .N

/-- Every dynamic type, in enumeration order. -/
def DynamicType.all : List DynamicType :=
  [.OTHER, .PPPPPP, .PPPPP, .PPPP, .PPP, .PP, .P, .MP, .MF, .F, .FF, .FFF, .FFFF, .FFFFF,
   .FFFFFF, .FP, .PF, .SF, .SFZ, .SFF, .SFFZ, .SFP, .SFPP, .RFZ, .RF, .FZ, .M, .R, .S, .Z, .N]

/-- Modelled from the spec: `DynamicRange`, the scope over which a marking's
velocity propagates (`types.h`). -/
inductive DynamicRange where
  | STAFF | PART | SYSTEM
  deriving DecidableEq, Repr, Inhabited

/-- Modelled from the spec: `DynamicSpeed`, the speed of a velocity change
(`types.h`). -/
inductive DynamicSpeed where
  | SLOW | NORMAL | FAST
  deriving DecidableEq, Repr, Inhabited

/-! ## The catalog -/

/-- A row of the catalog: `struct Dyn`. -/
structure Dyn where
  type : DynamicType
  /-- associated midi velocity (0-127, -1 = none) -/
  velocity : Int
  changeInVelocity : Int
  /-- if true add velocity to current chord velocity -/
  accent : Bool
  /-- utf8 text of dynamic -/
  text : String
  deriving DecidableEq, Repr

/-- The table `dynList`. -/
def dynList : List Dyn := [
  ⟨.OTHER, -1, 0, true, ""⟩,
  ⟨.PPPPPP, 1, 0, false,
    "<sym>dynamicPiano</sym><sym>dynamicPiano</sym><sym>dynamicPiano</sym><sym>dynamicPiano</sym><sym>dynamicPiano</sym><sym>dynamicPiano</sym>"⟩,
  ⟨.PPPPP, 5, 0, false,
    "<sym>dynamicPiano</sym><sym>dynamicPiano</sym><sym>dynamicPiano</sym><sym>dynamicPiano</sym><sym>dynamicPiano</sym>"⟩,
  ⟨.PPPP, 10, 0, false,
    "<sym>dynamicPiano</sym><sym>dynamicPiano</sym><sym>dynamicPiano</sym><sym>dynamicPiano</sym>"⟩,
  ⟨.PPP, 16, 0, false,
    "<sym>dynamicPiano</sym><sym>dynamicPiano</sym><sym>dynamicPiano</sym>"⟩,
  ⟨.PP, 33, 0, false, "<sym>dynamicPiano</sym><sym>dynamicPiano</sym>"⟩,
  ⟨.P, 49, 0, false, "<sym>dynamicPiano</sym>"⟩,

  ⟨.MP, 64, 0, false, "<sym>dynamicMezzo</sym><sym>dynamicPiano</sym>"⟩,
  ⟨.MF, 80, 0, false, "<sym>dynamicMezzo</sym><sym>dynamicForte</sym>"⟩,

  ⟨.F, 96, 0, false, "<sym>dynamicForte</sym>"⟩,
  ⟨.FF, 112, 0, false, "<sym>dynamicForte</sym><sym>dynamicForte</sym>"⟩,
  ⟨.FFF, 126, 0, false, "<sym>dynamicForte</sym><sym>dynamicForte</sym><sym>dynamicForte</sym>"⟩,
  ⟨.FFFF, 127, 0, false,
    "<sym>dynamicForte</sym><sym>dynamicForte</sym><sym>dynamicForte</sym><sym>dynamicForte</sym>"⟩,
  ⟨.FFFFF, 127, 0, false,
    "<sym>dynamicForte</sym><sym>dynamicForte</sym><sym>dynamicForte</sym><sym>dynamicForte</sym><sym>dynamicForte</sym>"⟩,
  ⟨.FFFFFF, 127, 0, false,
    "<sym>dynamicForte</sym><sym>dynamicForte</sym><sym>dynamicForte</sym><sym>dynamicForte</sym><sym>dynamicForte</sym><sym>dynamicForte</sym>"⟩,

  ⟨.FP, 96, -47, true, "<sym>dynamicForte</sym><sym>dynamicPiano</sym>"⟩,
  ⟨.PF, 49, 47, true, "<sym>dynamicPiano</sym><sym>dynamicForte</sym>"⟩,

  ⟨.SF, 112, -18, true, "<sym>dynamicSforzando</sym><sym>dynamicForte</sym>"⟩,
  ⟨.SFZ, 112, -18, true, "<sym>dynamicSforzando</sym><sym>dynamicForte</sym><sym>dynamicZ</sym>"⟩,
  ⟨.SFF, 126, -18, true, "<sym>dynamicSforzando</sym><sym>dynamicForte</sym><sym>dynamicForte</sym>"⟩,
  ⟨.SFFZ, 126, -18, true,
    "<sym>dynamicSforzando</sym><sym>dynamicForte</sym><sym>dynamicForte</sym><sym>dynamicZ</sym>"⟩,
  ⟨.SFP, 112, -47, true, "<sym>dynamicSforzando</sym><sym>dynamicForte</sym><sym>dynamicPiano</sym>"⟩,
  ⟨.SFPP, 112, -79, true,
    "<sym>dynamicSforzando</sym><sym>dynamicForte</sym><sym>dynamicPiano</sym><sym>dynamicPiano</sym>"⟩,

  ⟨.RFZ, 112, -18, true, "<sym>dynamicRinforzando</sym><sym>dynamicForte</sym><sym>dynamicZ</sym>"⟩,
  ⟨.RF, 112, -18, true, "<sym>dynamicRinforzando</sym><sym>dynamicForte</sym>"⟩,
  ⟨.FZ, 112, -18, true, "<sym>dynamicForte</sym><sym>dynamicZ</sym>"⟩,

  ⟨.M, 96, -16, true, "<sym>dynamicMezzo</sym>"⟩,
  ⟨.R, 112, -18, true, "<sym>dynamicRinforzando</sym>"⟩,
  ⟨.S, 112, -18, true, "<sym>dynamicSforzando</sym>"⟩,
  ⟨.Z, 80, 0, true, "<sym>dynamicZ</sym>"⟩,
  ⟨.N, 49, -48, true, "<sym>dynamicNiente</sym>"⟩
]

/-- The array access `dynList[int(t)]`. -/
def dynEntry (t : DynamicType) : Dyn :=
  dynList.get ⟨t.toNat, by cases t <;> decide⟩

/-! ## The element -/

/-- A point `PointF`. -/
structure PointF where
  x : ℚ
  y : ℚ
  deriving DecidableEq

/-- A rectangle `RectF`, given by its top-left corner and its size. -/
structure RectF where
  x : ℚ
  y : ℚ
  w : ℚ
  h : ℚ
  deriving DecidableEq

/-- The element `Dynamic`: its own five fields, followed by the part of the
inherited text element and engraving item that `dynamic.cpp` reads and
writes. -/
structure Dynamic where
  _dynamicType : DynamicType
  _velocity : Int
  _dynRange : DynamicRange
  _changeInVelocity : Int
  _velChangeSpeed : DynamicSpeed
  /-- the display text held by the text base (`xmlText()` / `setXmlText`) -/
  xmlText : String
  /-- the position `_pos` set by layout; `rxpos()` / `rypos()` refer to it -/
  _pos : PointF
  /-- the user offset `offset()` -/
  _offset : PointF
  /-- the bounding box `bbox()` computed by the text layout -/
  bbox : RectF
  /-- whether `segment()` is non-null -/
  hasSegment : Bool
  /-- the flag `autoplace()` -/
  autoplace : Bool
  /-- the result of `placeAbove()` -/
  placeAbove : Bool
  /-- whether a re-layout has been requested (`triggerLayout()`) -/
  layoutRequested : Bool
  deriving DecidableEq

/-- The state set up by the constructor `Dynamic::Dynamic(Segment* parent)`:
the five own fields as assigned there, an empty text, and the given
engraving-item part. -/
def Dynamic.new (hasSegment : Bool) : Dynamic where
  _dynamicType := .OTHER
  _velocity := -1
  _dynRange := .PART
  _changeInVelocity := 128
  _velChangeSpeed := .NORMAL
  xmlText := ""
  _pos := ⟨0, 0⟩
  _offset := ⟨0, 0⟩
  bbox := ⟨0, 0, 0, 0⟩
  hasSegment := hasSegment
  autoplace := true
  placeAbove := false
  layoutRequested := false

/-- The accessor `dynamicType()`. -/
def Dynamic.dynamicType (d : Dynamic) : DynamicType := d._dynamicType

/-- The accessor `velChangeSpeed()`. -/
def Dynamic.velChangeSpeed (d : Dynamic) : DynamicSpeed := d._velChangeSpeed

/-- The inline setter `setDynamicType(DynamicType val)`. -/
def Dynamic.setDynamicTypeEnum (d : Dynamic) (val : DynamicType) : Dynamic :=
  { d with _dynamicType := val }

/-- The text-base setter `setXmlText`. -/
def Dynamic.setXmlText (d : Dynamic) (s : String) : Dynamic :=
  { d with xmlText := s }

/-! ## Velocity model -/

/-- The member function `Dynamic::velocity`. -/
def Dynamic.velocity (d : Dynamic) : Int :=
  if d._velocity ≤ 0 then (dynEntry d.dynamicType).velocity else d._velocity

/-- The member function `Dynamic::changeInVelocity`. -/
def Dynamic.changeInVelocity (d : Dynamic) : Int :=
  if d._changeInVelocity ≥ 128 then (dynEntry d.dynamicType).changeInVelocity
  else d._changeInVelocity

/-- The member function `Dynamic::setChangeInVelocity`. -/
def Dynamic.setChangeInVelocity (d : Dynamic) (val : Int) : Dynamic :=
  if (dynEntry d.dynamicType).changeInVelocity = val then
    { d with _changeInVelocity := 128 }
  else
    { d with _changeInVelocity := val }

/-- The member function `Dynamic::isVelocityChangeAvailable`. -/
def Dynamic.isVelocityChangeAvailable (d : Dynamic) : Bool :=
  match d.dynamicType with
  | .FP | .SF | .SFZ | .SFF | .SFFZ | .SFP | .SFPP | .RFZ | .RF | .FZ | .M | .R | .S => true
  | _ => false

/-! ## Arithmetic of `double` -/

/-- The integer nearest to a rational, a tie going to the even one. -/
def roundNearestEven (t : ℚ) : Int :=
  if Int.fract t < 1 / 2 then ⌊t⌋
  else if 1 / 2 < Int.fract t then ⌊t⌋ + 1
  else if ⌊t⌋ % 2 = 0 then ⌊t⌋ else ⌊t⌋ + 1

/-- The exponent of the unit in the last place of the doubles around `x`:
a double has 53 significant bits, and the least exponent is -1074. -/
def ulpExponent (x : ℚ) : Int := max (Int.log 2 |x| - 52) (-1074)

/-- The `double` nearest to a rational `x`: IEEE 754 binary64, rounding to
nearest, ties to even, with gradual underflow. The exponent is not bounded
above here: a result beyond `maxDouble`, which the machine turns into an
infinity, is rounded like any other, and is told apart by comparing it with
`maxDouble`. -/
def roundDouble (x : ℚ) : ℚ :=
  if x = 0 then 0 else (roundNearestEven (x / 2 ^ ulpExponent x) : ℚ) * 2 ^ ulpExponent x

/-- The largest finite double, `(2 ^ 53 - 1) * 2 ^ 971`. -/
def maxDouble : ℚ := (2 ^ 53 - 1) * 2 ^ 971

/-- The product `a * b` of two doubles. -/
def fmul (a b : ℚ) : ℚ := roundDouble (a * b)

/-- The quotient `a / b` of two doubles, for `b` other than zero. -/
def fdiv (a b : ℚ) : ℚ := roundDouble (a / b)

/-- Truncation toward zero. -/
def truncToInt (x : ℚ) : Int :=
  if 0 ≤ x then ⌊x⌋ else ⌈x⌉

/-- The conversion `int(x)` of a double to `int`: truncation toward zero when
the truncated value is an `int`; otherwise the behaviour of the conversion is
undefined (`none`). -/
def doubleToInt (x : ℚ) : Option Int :=
  if -(2 ^ 31 : ℚ) - 1 < x ∧ x < 2 ^ 31 then some (truncToInt x) else none

/-! ## Length of the velocity change -/

/-- The multiplier selected by the `switch` on `velChangeSpeed()` in
`Dynamic::velocityChangeLength`: the doubles written `1.3`, `0.5`, `0.8`. -/
def speedMult : DynamicSpeed → ℚ
  | .SLOW => roundDouble (13 / 10)
  | .FAST => roundDouble (1 / 2)
  | .NORMAL => roundDouble (4 / 5)

/-- The double `ratio * (speedMult * double(Constant::division))` of
`Dynamic::velocityChangeLength`, with
`ratio = tempo(tick).val / Constants::defaultTempo.val`. The tempo at the
marking's tick, the default tempo and the division come from outside
`dynamic.cpp` and are parameters; the division is an `int`, whose conversion
to `double` is exact. -/
def Dynamic.velocityChangeProduct (tempo defaultTempo : ℚ) (division : Nat) (d : Dynamic) : ℚ :=
  let ratio : ℚ := fdiv tempo defaultTempo
  fmul ratio (fmul (speedMult d.velChangeSpeed) (division : ℚ))

/-- The member function `Dynamic::velocityChangeLength`, as the number of
ticks handed to `Fraction::fromTicks`. The result is `none` where the
behaviour of the code is undefined: `segment()` is dereferenced without a
test, and the product is converted to `int`, which is defined only for a
finite product whose truncation is an `int` (a default tempo of zero, or a
ratio or a factor beyond `maxDouble`, makes the product an infinity or not a
number). -/
def Dynamic.velocityChangeLength (tempo defaultTempo : ℚ) (division : Nat) (d : Dynamic) :
    Option Int :=
  if d.changeInVelocity = 0 then
    some 0
  else if !d.hasSegment then
    none
  else if defaultTempo = 0 then
    none
  else if maxDouble < |fdiv tempo defaultTempo|
      ∨ maxDouble < |fmul (speedMult d.velChangeSpeed) (division : ℚ)| then
    none
  else
    doubleToInt (d.velocityChangeProduct tempo defaultTempo division)

/-! ## Kind resolution from text -/

/-- Modelled from the spec: `TConv::toXml(DynamicType)`, the canonical short
tag of a kind (`typesconv.cpp` is not part of the sources at hand): the
lower-case name of the kind, such as `sfz` for `SFZ`. -/
def dynamicTypeToXml : DynamicType → String
  | .OTHER => "other-dynamics"
  | .PPPPPP => "pppppp" | .PPPPP => "ppppp" | .PPPP => "pppp" | .PPP => "ppp" | .PP => "pp"
  | .P => "p"
  | .MP => "mp" | .MF => "mf"
  | .F => "f" | .FF => "ff" | .FFF => "fff" | .FFFF => "ffff" | .FFFFF => "fffff"
  | .FFFFFF => "ffffff"
  | .FP => "fp" | .PF => "pf"
  | .SF => "sf" | .SFZ => "sfz" | .SFF => "sff" | .SFFZ => "sffz" | .SFP => "sfp"
  | .SFPP => "sfpp"
  | .RFZ => "rfz" | .RF => "rf" | .FZ => "fz"
  | .M => "m" | .R => "r" | .S => "s" | .Z => "z" | .N => "n"

/-- The test of the loop in `Dynamic::setDynamicType(const QString&)` at
index `i` with row `e = dynList[i]`:
`TConv::toXml(DynamicType(i)) == tag || dynList[i].text == tag`. -/
def tagMatches (toXml : DynamicType → String) (tag : String) (i : Nat) (e : Dyn) : Prop :=
  toXml (DynamicType.ofIndex i) = tag ∨ e.text = tag

instance (toXml : DynamicType → String) (tag : String) (i : Nat) (e : Dyn) :
    Decidable (tagMatches toXml tag i e) := by
  unfold tagMatches; exact inferInstance

/-- The loop `for (int i = 0; i < n; ++i)` of
`Dynamic::setDynamicType(const QString&)` over the rows that remain, `i`
being the index of the first of them: the index and row of the first match. -/
def setDynamicTypeLoop (toXml : DynamicType → String) (tag : String) :
    List Dyn → Nat → Option (Nat × Dyn)
  | [], _ => none
  | e :: rest, i =>
    if tagMatches toXml tag i e then some (i, e)
    else setDynamicTypeLoop toXml tag rest (i + 1)

/-- The member function `Dynamic::setDynamicType(const QString& tag)`; `toXml` is
`TConv::toXml(DynamicType)`. -/
def Dynamic.setDynamicType (toXml : DynamicType → String) (d : Dynamic) (tag : String) :
    Dynamic :=
  match setDynamicTypeLoop toXml tag dynList 0 with
  | some (i, e) => (d.setDynamicTypeEnum (DynamicType.ofIndex i)).setXmlText e.text
  | none => (d.setDynamicTypeEnum .OTHER).setXmlText tag

/-- The member function `Dynamic::dynamicText`. -/
def dynamicText (t : DynamicType) : String := (dynEntry t).text

/-! ## Property dispatch -/

/-- Modelled from the spec: the property identifiers `Pid` that
`dynamic.cpp` names (`property.h`); every other identifier is `other n`. -/
inductive Pid where
  | DYNAMIC_TYPE | DYNAMIC_RANGE | VELOCITY | SUBTYPE | VELO_CHANGE | VELO_CHANGE_SPEED
  | TEXT_STYLE | OFFSET | PLACEMENT | MIN_DISTANCE
  | other (n : Nat)
  deriving DecidableEq, Repr

/-- Modelled from the spec: the variant `PropertyValue` of the property
framework, with the payloads that `dynamic.cpp` produces; `invalid` is the
default-constructed `PropertyValue()` and `other n` any further payload of the
inherited dispatch. -/
inductive PropertyValue where
  | invalid
  | int (n : Int)
  | dynamicType (t : DynamicType)
  | dynamicRange (r : DynamicRange)
  | dynamicSpeed (s : DynamicSpeed)
  | textStyleDynamics
  | other (n : Nat)
  deriving DecidableEq, Repr

/-- The member function `Dynamic::getProperty`; `baseGet` is `TextBase::getProperty`. -/
def Dynamic.getProperty (baseGet : Pid → PropertyValue) (d : Dynamic) (propertyId : Pid) :
    PropertyValue :=
  match propertyId with
  | .DYNAMIC_TYPE => .dynamicType d._dynamicType
  | .DYNAMIC_RANGE => .dynamicRange d._dynRange
  | .VELOCITY => .int d.velocity
  | .SUBTYPE => .int d._dynamicType.toNat
  | .VELO_CHANGE =>
    if d.isVelocityChangeAvailable then .int d.changeInVelocity else .invalid
  | .VELO_CHANGE_SPEED => .dynamicSpeed d._velChangeSpeed
  | pid => baseGet pid

/-- The member function `Dynamic::propertyDefault`; `baseDefault` is `TextBase::propertyDefault`. -/
def Dynamic.propertyDefault (baseDefault : Pid → PropertyValue) (d : Dynamic) (id : Pid) :
    PropertyValue :=
  match id with
  | .TEXT_STYLE => .textStyleDynamics
  | .DYNAMIC_RANGE => .dynamicRange .PART
  | .VELOCITY => .int (-1)
  | .VELO_CHANGE =>
    if d.isVelocityChangeAvailable then .int (dynEntry d.dynamicType).changeInVelocity
    else .invalid
  | .VELO_CHANGE_SPEED => .dynamicSpeed .NORMAL
  | pid => baseDefault pid

/-! ## Persistence codec -/

/-- Modelled from the spec: the content of an element of the structured tree
format. An element carries text or an integer; formatting and parsing of
numbers belong to the external tree writer and reader. -/
inductive XmlContent where
  | text (s : String)
  | int (n : Int)
  deriving DecidableEq, Repr

/-- Modelled from the spec: an element of the tag stream, a tag name with its
content. -/
structure XmlElement where
  name : String
  content : XmlContent
  deriving DecidableEq, Repr

/-- Modelled from the spec: `XmlReader::readElementText`, the text of the
current element. -/
def XmlElement.readElementText (e : XmlElement) : String :=
  match e.content with
  | .text s => s
  | .int n => toString n

/-- Modelled from the spec: `XmlReader::readInt`, the integer of the current
element (0 for text that is not a number). -/
def XmlElement.readInt (e : XmlElement) : Int :=
  match e.content with
  | .int n => n
  | .text s => s.toInt?.getD 0

/-- Modelled from the spec: the conversions of `TConv` between enumerated
values and their tokens in the persisted format (`typesconv.cpp` is not part
of the sources at hand). `fromXml` takes the default returned for an
unrecognized token as its second argument. -/
structure TConv where
  dynamicTypeToXml : DynamicType → String
  dynamicRangeToXml : DynamicRange → String
  dynamicRangeFromXml : String → DynamicRange → DynamicRange
  dynamicSpeedToXml : DynamicSpeed → String
  dynamicSpeedFromXml : String → DynamicSpeed → DynamicSpeed

/-- Modelled from the spec: the tokens `STAFF`, `PART`, `SYSTEM` of the
dynamic range and `SLOW`, `NORMAL`, `FAST` of the speed, with the short tags
of the kinds. -/
def tconv : TConv where
  dynamicTypeToXml := dynamicTypeToXml
  dynamicRangeToXml := fun r =>
    match r with
    | .STAFF => "STAFF" | .PART => "PART" | .SYSTEM => "SYSTEM"
  dynamicRangeFromXml := fun s def_ =>
    if s = "STAFF" then .STAFF else if s = "PART" then .PART
    else if s = "SYSTEM" then .SYSTEM else def_
  dynamicSpeedToXml := fun r =>
    match r with
    | .SLOW => "SLOW" | .NORMAL => "NORMAL" | .FAST => "FAST"
  dynamicSpeedFromXml := fun s def_ =>
    if s = "SLOW" then .SLOW else if s = "NORMAL" then .NORMAL
    else if s = "FAST" then .FAST else def_

/-- Modelled from the spec: the tag under which a property is persisted
(`propertyName`, section 6 of the specification). -/
def propertyName : Pid → String
  | .DYNAMIC_TYPE => "subtype"
  | .VELOCITY => "velocity"
  | .DYNAMIC_RANGE => "dynType"
  | .VELO_CHANGE => "veloChange"
  | .VELO_CHANGE_SPEED => "veloChangeSpeed"
  | _ => "property"

/-- Modelled from the spec: the content written for a property value
(`XmlWriter::tagProperty`): integers as integers, enumerated values as their
`TConv` tokens. -/
def propertyContent (cv : TConv) : PropertyValue → Option XmlContent
  | .int n => some (.int n)
  | .dynamicType t => some (.text (cv.dynamicTypeToXml t))
  | .dynamicRange r => some (.text (cv.dynamicRangeToXml r))
  | .dynamicSpeed s => some (.text (cv.dynamicSpeedToXml s))
  | _ => none

/-- Modelled from the spec: `EngravingObject::writeProperty(xml, pid)`, which
emits one element named after the property and carrying `getProperty(pid)`;
an invalid value is not written. With `omitDefaults` set, the writer also
leaves out a value equal to `propertyDefault(pid)`; both behaviours of the
external writer are covered. -/
def Dynamic.writeProperty (cv : TConv) (omitDefaults : Bool)
    (baseGet baseDefault : Pid → PropertyValue) (d : Dynamic) (pid : Pid) : List XmlElement :=
  let p := d.getProperty baseGet pid
  if omitDefaults = true ∧ p = d.propertyDefault baseDefault pid then []
  else
    match propertyContent cv p with
    | some c => [⟨propertyName pid, c⟩]
    | none => []

/-- Modelled from the spec: `TextBase::writeProperties(xml, writeText)`, the
inherited text properties; the display text is written when `writeText` is
set. -/
def Dynamic.textBaseWriteProperties (d : Dynamic) (writeText : Bool) : List XmlElement :=
  if writeText then [⟨"text", .text d.xmlText⟩] else []

/-- Modelled from the spec: `TextBase::readProperties(e)`, the inherited
reader: it consumes a `text` element into the display text and reports any
other element as not recognized (`none`). -/
def Dynamic.textBaseReadProperties (d : Dynamic) (e : XmlElement) : Option Dynamic :=
  if e.name = "text" then some (d.setXmlText e.readElementText) else none

/-- The member function `Dynamic::write`: the elements emitted between `startObject` and
`endObject`; `canWrite` is the result of `xml.canWrite(this)`. -/
def Dynamic.write (cv : TConv) (omitDefaults canWrite : Bool)
    (baseGet baseDefault : Pid → PropertyValue) (d : Dynamic) : List XmlElement :=
  if !canWrite then []
  else
    d.writeProperty cv omitDefaults baseGet baseDefault .DYNAMIC_TYPE
    ++ d.writeProperty cv omitDefaults baseGet baseDefault .VELOCITY
    ++ d.writeProperty cv omitDefaults baseGet baseDefault .DYNAMIC_RANGE
    ++ (if d.isVelocityChangeAvailable then
          d.writeProperty cv omitDefaults baseGet baseDefault .VELO_CHANGE
          ++ d.writeProperty cv omitDefaults baseGet baseDefault .VELO_CHANGE_SPEED
        else [])
    ++ d.textBaseWriteProperties (d.dynamicType == .OTHER)

/-- The body of the loop of `Dynamic::read` for one element of the tag
stream; an element that the inherited reader does not recognize either is
skipped (`e.unknown()`). -/
def Dynamic.readElement (cv : TConv) (d : Dynamic) (e : XmlElement) : Dynamic :=
  if e.name = "subtype" then
    d.setDynamicType cv.dynamicTypeToXml e.readElementText
  else if e.name = "velocity" then
    { d with _velocity := e.readInt }
  else if e.name = "dynType" then
    { d with _dynRange := cv.dynamicRangeFromXml e.readElementText .STAFF }
  else if e.name = "veloChange" then
    { d with _changeInVelocity := e.readInt }
  else if e.name = "veloChangeSpeed" then
    { d with _velChangeSpeed := cv.dynamicSpeedFromXml e.readElementText .NORMAL }
  else
    match d.textBaseReadProperties e with
    | some d' => d'
    | none => d

/-- The member function `Dynamic::read`: the loop `while (e.readNextStartElement())` over the
elements of the tag stream. -/
def Dynamic.read (cv : TConv) (d : Dynamic) (es : List XmlElement) : Dynamic :=
  es.foldl (Dynamic.readElement cv) d

/-! ## Autoplacement -/

/-- The state of the element that belongs to the inherited text element and
engraving item: the fields of `Dynamic` other than its own five. The
inherited member functions act on this part only. -/
structure TextBasePart where
  xmlText : String
  _pos : PointF
  _offset : PointF
  bbox : RectF
  hasSegment : Bool
  autoplace : Bool
  placeAbove : Bool
  layoutRequested : Bool
  deriving DecidableEq

/-- The inherited part of a marking. -/
def Dynamic.textBase (d : Dynamic) : TextBasePart where
  xmlText := d.xmlText
  _pos := d._pos
  _offset := d._offset
  bbox := d.bbox
  hasSegment := d.hasSegment
  autoplace := d.autoplace
  placeAbove := d.placeAbove
  layoutRequested := d.layoutRequested

/-- The marking after an inherited member function has left the inherited
part in the state `tb`; the own five fields are kept. -/
def Dynamic.setTextBase (d : Dynamic) (tb : TextBasePart) : Dynamic where
  _dynamicType := d._dynamicType
  _velocity := d._velocity
  _dynRange := d._dynRange
  _changeInVelocity := d._changeInVelocity
  _velChangeSpeed := d._velChangeSpeed
  xmlText := tb.xmlText
  _pos := tb._pos
  _offset := tb._offset
  bbox := tb.bbox
  hasSegment := tb.hasSegment
  autoplace := tb.autoplace
  placeAbove := tb.placeAbove
  layoutRequested := tb.layoutRequested

/-- The request for a re-layout, `triggerLayout()`. -/
def Dynamic.triggerLayout (d : Dynamic) : Dynamic :=
  { d with layoutRequested := true }

/-! ## Property dispatch: setting -/

/-- Modelled from the spec: the typed readers of a `PropertyValue`
(`v.toInt()`, `v.value<DynamicType>()`, `v.value<DynamicRange>()`,
`v.value<DynamicSpeed>()`), which belong to the property framework and are
parameters of the dispatch. -/
structure PropertyConv where
  toInt : PropertyValue → Int
  toDynamicType : PropertyValue → DynamicType
  toDynamicRange : PropertyValue → DynamicRange
  toDynamicSpeed : PropertyValue → DynamicSpeed

/-- The member function `Dynamic::setProperty`: the returned flag and the
marking afterwards. `baseSet` is `TextBase::setProperty`, which acts on the
inherited part and returns its own flag. -/
def Dynamic.setProperty (conv : PropertyConv)
    (baseSet : Pid → PropertyValue → TextBasePart → Bool × TextBasePart)
    (d : Dynamic) (propertyId : Pid) (v : PropertyValue) : Bool × Dynamic :=
  match propertyId with
  | .DYNAMIC_TYPE =>
    (true, ({ d with _dynamicType := conv.toDynamicType v } : Dynamic).triggerLayout)
  | .DYNAMIC_RANGE =>
    (true, ({ d with _dynRange := conv.toDynamicRange v } : Dynamic).triggerLayout)
  | .VELOCITY =>
    (true, ({ d with _velocity := conv.toInt v } : Dynamic).triggerLayout)
  | .SUBTYPE =>
    (true, ({ d with _dynamicType := conv.toDynamicType v } : Dynamic).triggerLayout)
  | .VELO_CHANGE =>
    (true, (if d.isVelocityChangeAvailable then d.setChangeInVelocity (conv.toInt v)
      else d).triggerLayout)
  | .VELO_CHANGE_SPEED =>
    (true, ({ d with _velChangeSpeed := conv.toDynamicSpeed v } : Dynamic).triggerLayout)
  | pid =>
    if !(baseSet pid v d.textBase).1 then
      (false, d.setTextBase (baseSet pid v d.textBase).2)
    else
      (true, (d.setTextBase (baseSet pid v d.textBase).2).triggerLayout)

/-- The member function `Dynamic::endEdit`; `baseEndEdit` is
`TextBase::endEdit`, which acts on the inherited part. -/
def Dynamic.endEdit (baseEndEdit : TextBasePart → TextBasePart) (d : Dynamic) : Dynamic :=
  let d1 := d.setTextBase (baseEndEdit d.textBase)
  if d1.xmlText ≠ (dynEntry d1._dynamicType).text then
    { d1 with _dynamicType := .OTHER }
  else d1

/-! ## Horizontal layout -/

/-- Modelled from the spec: the number of voices of a staff, `VOICES`
(`mscore.h`). -/
def VOICES : Nat := 4

/-- Modelled from the spec: what `Dynamic::layout` reads of an element
`s->element(track)` of the segment: whether it is a chord (`isChord()`) and
its width (`width()`). -/
structure SegmentElement where
  isChord : Bool
  width : ℚ
  deriving DecidableEq

/-- Modelled from the spec: a glyph identifier `SymId` (`symid.h`); `noSym`
is `SymId::noSym`. -/
inductive SymId where
  | noSym
  | sym (n : Nat)
  deriving DecidableEq, Repr

/-- What `Dynamic::layout` obtains from outside `dynamic.cpp`. -/
structure LayoutEnv where
  /-- the inherited layout `TextBase::layout()`, acting on the inherited part -/
  textBaseLayout : TextBasePart → TextBasePart
  /-- the track `track()` of the marking -/
  track : Nat
  /-- the elements `s->element(track)` of the segment, `none` for a null pointer -/
  element : Nat → Option SegmentElement
  /-- whether `align() == AlignH::HCENTER` -/
  alignHCenter : Bool
  /-- the glyph of a kind, `TConv::symId(dynamicType())` -/
  symId : DynamicType → SymId
  /-- the staff space `spatium()` -/
  spatium : ℚ
  /-- the constant `SPATIUM20` -/
  SPATIUM20 : ℚ
  /-- the width `score()->noteHeadWidth()` -/
  noteHeadWidth : ℚ
  /-- the abscissa `symSmuflAnchor(symId, SmuflAnchorId::opticalCenter).x()` -/
  opticalCenterX : SymId → ℚ
  /-- the abscissa `symBbox(symId).bottomLeft().x()` -/
  symBboxLeft : SymId → ℚ
  /-- the font size `size()` -/
  size : ℚ

/-- The update `rxpos() += dx` of the horizontal layout position. -/
def Dynamic.rxposAdd (d : Dynamic) (dx : ℚ) : Dynamic :=
  { d with _pos := ⟨d._pos.x + dx, d._pos.y⟩ }

/-- The clearing of the two low bits of a track, `track() & ~0x3`. -/
def clearLowTwoBits (t : Nat) : Nat := 4 * (t / 4)

/-- The body of the loop of `Dynamic::layout` for an element `e` that is not
null, up to the `break`. -/
def Dynamic.layoutElement (env : LayoutEnv) (d : Dynamic) (e : SegmentElement) : Dynamic :=
  if e.isChord && env.alignHCenter then
    let symId := env.symId d.dynamicType
    let dynamicMag := env.spatium / env.SPATIUM20
    let noteHeadWidth := env.noteHeadWidth * dynamicMag
    let d1 := d.rxposAdd (noteHeadWidth * (1 / 2))
    let opticalCenter := env.opticalCenterX symId * dynamicMag
    if symId ≠ .noSym ∧ opticalCenter ≠ 0 then
      let fontScaling := env.size / 10
      let left := env.symBboxLeft symId * dynamicMag
      let opticalCenter1 := opticalCenter * fontScaling
      let left1 := left * fontScaling
      let offset := opticalCenter1 - left1 - d1.bbox.w * (1 / 2)
      d1.rxposAdd (-offset)
    else d1
  else
    d.rxposAdd (e.width * (1 / 2))

/-- The loop `for (voice_idx_t voice = 0; voice < VOICES; ++voice)` of
`Dynamic::layout` from the voice `voice` on, with `remaining` voices left. -/
def Dynamic.layoutLoop (env : LayoutEnv) (t : Nat) (d : Dynamic) : Nat → Nat → Dynamic
  | 0, _ => d
  | remaining + 1, voice =>
    match env.element (t + voice) with
    | none => Dynamic.layoutLoop env t d remaining (voice + 1)
    | some e => d.layoutElement env e

/-- The member function `Dynamic::layout`. -/
def Dynamic.layout (env : LayoutEnv) (d : Dynamic) : Dynamic :=
  let d1 := d.setTextBase (env.textBaseLayout d.textBase)
  if d1.hasSegment then
    let t := clearLowTwoBits env.track
    Dynamic.layoutLoop env t d1 VOICES 0
  else
    { d1 with _pos := ⟨0, 0⟩ }

/-! ## The plain dynamics in order of loudness -/

/-- The plain dynamics from the softest to the loudest: the rows of `dynList`
from `PPPPPP` to `FFFFFF`, in table order. -/
def loudnessOrder : List DynamicType :=
  [.PPPPPP, .PPPPP, .PPPP, .PPP, .PP, .P, .MP, .MF, .F, .FF, .FFF, .FFFF, .FFFFF, .FFFFFF]

/-- The base velocities `dynList[int(t)].velocity` along a list of kinds. -/
def baseVelocities (l : List DynamicType) : List Int :=
  l.map (fun t => (dynEntry t).velocity)

/-! ## Concrete markings used as instances -/

/-- Readers used in the instances: the payload of a value of the requested
type, and a fixed value for a value of another type. -/
def PropertyConv.payload : PropertyConv where
  toInt := fun v =>
    match v with
    | .int n => n
    | _ => -1
  toDynamicType := fun v =>
    match v with
    | .dynamicType t => t
    | _ => .OTHER
  toDynamicRange := fun v =>
    match v with
    | .dynamicRange r => r
    | _ => .PART
  toDynamicSpeed := fun v =>
    match v with
    | .dynamicSpeed s => s
    | _ => .NORMAL


/-- A layout situation: the marking is on track 5 (staff 1, voice 1), so the
scan starts at track 4; voice 0 holds a rest of width 3 and voice 1 a chord
of width 5; the alignment is centered; the staff space is that of the
reference size; the notehead is 1 wide; no glyph has an anchor. -/
def LayoutEnv.restThenChord : LayoutEnv where
  textBaseLayout := fun tb => tb
  track := 5
  element := fun k =>
    if k = 4 then some ⟨false, 3⟩ else if k = 5 then some ⟨true, 5⟩ else none
  alignHCenter := true
  symId := fun _ => .noSym
  spatium := 1
  SPATIUM20 := 1
  noteHeadWidth := 1
  opticalCenterX := fun _ => 0
  symBboxLeft := fun _ => 0
  size := 10

/-- The layout situation `restThenChord` with an alignment that is not
centered. -/
def LayoutEnv.restThenChordLeft : LayoutEnv :=
  { LayoutEnv.restThenChord with alignHCenter := false }

/-- A freshly constructed marking given the kind `t`, the stored velocity `v`
and the stored velocity change `c`. -/
def Dynamic.sample (t : DynamicType) (v c : Int) : Dynamic :=
  { Dynamic.new true with _dynamicType := t, _velocity := v, _changeInVelocity := c }

/-- A marking of kind `SFZ` with explicit velocity 90, velocity change -30,
range `SYSTEM` and speed `FAST`. -/
def Dynamic.sampleSfz : Dynamic :=
  { Dynamic.sample .SFZ 90 (-30) with
    _dynRange := .SYSTEM, _velChangeSpeed := .FAST, xmlText := dynamicText .SFZ }

/-- A free-text marking: kind `OTHER`, nothing stored, display text `poco f`. -/
def Dynamic.samplePocoF : Dynamic :=
  { Dynamic.new true with xmlText := "poco f" }

/-- C1: with no explicit velocity stored (`_velocity <= 0`), `velocity()` is
the base velocity of the catalog row of the kind (49 for `P`, 126 for `FFF`,
the sentinel -1 for `OTHER`); with an explicit velocity `v > 0` stored,
`velocity()` is `v` whatever the kind. -/
theorem velocity_spec (d : Dynamic) :
    (d._velocity ≤ 0 →
      d.velocity = (dynEntry d.dynamicType).velocity
      ∧ (d.dynamicType = .P → d.velocity = 49)
      ∧ (d.dynamicType = .FFF → d.velocity = 126)
      ∧ (d.dynamicType = .OTHER → d.velocity = -1))
    ∧ (0 < d._velocity → d.velocity = d._velocity) := by
  refine ⟨fun h => ?_, fun h => ?_⟩
  · have hv : d.velocity = (dynEntry d.dynamicType).velocity := by
      simp [Dynamic.velocity, h]
    refine ⟨hv, fun hk => ?_, fun hk => ?_, fun hk => ?_⟩ <;> rw [hv, hk] <;> rfl
  · simp [Dynamic.velocity, not_le.mpr h]

/-- Instances of C1: `P`, `FFF` and `OTHER` without a stored velocity, and
`OTHER` with the velocity 100 stored. -/
theorem velocity_spec_witness :
    (Dynamic.sample .P 0 128).velocity = 49
    ∧ (Dynamic.sample .FFF (-1) 128).velocity = 126
    ∧ (Dynamic.sample .OTHER (-1) 128).velocity = -1
    ∧ (Dynamic.sample .OTHER 100 128).velocity = 100 :=
  ⟨((velocity_spec (Dynamic.sample .P 0 128)).1 (by decide)).2.1 rfl,
   ((velocity_spec (Dynamic.sample .FFF (-1) 128)).1 (by decide)).2.2.1 rfl,
   ((velocity_spec (Dynamic.sample .OTHER (-1) 128)).1 (by decide)).2.2.2 rfl,
   (velocity_spec (Dynamic.sample .OTHER 100 128)).2 (by decide)⟩

/-- C2: after `setChangeInVelocity` with the catalog delta of the current
kind, the stored override is the sentinel 128 and `changeInVelocity()` is that
catalog delta; after a later change of kind to any `K'`, by the setter or by
kind resolution from a tag, `changeInVelocity()` is the catalog delta of the
new kind. -/
theorem setChangeInVelocity_catalog (d : Dynamic) :
    (d.setChangeInVelocity (dynEntry d.dynamicType).changeInVelocity)._changeInVelocity = 128
    ∧ (d.setChangeInVelocity (dynEntry d.dynamicType).changeInVelocity).changeInVelocity
        = (dynEntry d.dynamicType).changeInVelocity
    ∧ (∀ K' : DynamicType,
        ((d.setChangeInVelocity (dynEntry d.dynamicType).changeInVelocity).setDynamicTypeEnum
            K').changeInVelocity = (dynEntry K').changeInVelocity)
    ∧ (∀ (toXml : DynamicType → String) (tag : String),
        ((d.setChangeInVelocity (dynEntry d.dynamicType).changeInVelocity).setDynamicType
            toXml tag).changeInVelocity
          = (dynEntry ((d.setChangeInVelocity
              (dynEntry d.dynamicType).changeInVelocity).setDynamicType
                toXml tag).dynamicType).changeInVelocity) := by
  have h1 : d.setChangeInVelocity (dynEntry d.dynamicType).changeInVelocity
      = { d with _changeInVelocity := 128 } := by
    simp [Dynamic.setChangeInVelocity]
  rw [h1]
  refine ⟨rfl, ?_, fun K' => ?_, fun toXml tag => ?_⟩
  · simp [Dynamic.changeInVelocity, Dynamic.dynamicType]
  · simp [Dynamic.changeInVelocity, Dynamic.dynamicType, Dynamic.setDynamicTypeEnum]
  · unfold Dynamic.setDynamicType
    cases setDynamicTypeLoop toXml tag dynList 0 with
    | none =>
      simp [Dynamic.changeInVelocity, Dynamic.dynamicType, Dynamic.setDynamicTypeEnum,
        Dynamic.setXmlText]
    | some p =>
      simp [Dynamic.changeInVelocity, Dynamic.dynamicType, Dynamic.setDynamicTypeEnum,
        Dynamic.setXmlText]

/-- C5 fails as stated: a marking of kind `OTHER`, and one of kind `PF`, has
the accent flag set in its catalog row while `isVelocityChangeAvailable()` is
false. -/
theorem isVelocityChangeAvailable_accent_counterexample :
    ((dynEntry (Dynamic.sample .OTHER (-1) 128).dynamicType).accent = true
      ∧ (Dynamic.sample .OTHER (-1) 128).isVelocityChangeAvailable = false)
    ∧ ((dynEntry (Dynamic.sample .PF (-1) 128).dynamicType).accent = true
      ∧ (Dynamic.sample .PF (-1) 128).isVelocityChangeAvailable = false) := by
  decide

/-- C5, amended: `isVelocityChangeAvailable()` is true exactly for the
thirteen kinds of its `switch`; these are the kinds whose row has the accent
flag set other than `OTHER`, `PF`, `Z` and `N`. -/
theorem isVelocityChangeAvailable_iff (d : Dynamic) :
    (d.isVelocityChangeAvailable = true ↔
      d.dynamicType ∈ [DynamicType.FP, .SF, .SFZ, .SFF, .SFFZ, .SFP, .SFPP, .RFZ, .RF, .FZ,
        .M, .R, .S])
    ∧ (d.isVelocityChangeAvailable = true ↔
      ((dynEntry d.dynamicType).accent = true
        ∧ d.dynamicType ∉ [DynamicType.OTHER, .PF, .Z, .N])) := by
  unfold Dynamic.isVelocityChangeAvailable
  generalize d.dynamicType = t
  cases t <;> decide

/-- C6: for a kind whose catalog row has the accent flag cleared, whatever
the stored override, `isVelocityChangeAvailable()` is false, and both
`getProperty(VELO_CHANGE)` and `propertyDefault(VELO_CHANGE)` are the invalid
value. -/
theorem veloChange_absent_of_not_accent (baseGet baseDefault : Pid → PropertyValue)
    (d : Dynamic) (h : (dynEntry d.dynamicType).accent = false) :
    d.isVelocityChangeAvailable = false
    ∧ d.getProperty baseGet .VELO_CHANGE = .invalid
    ∧ d.propertyDefault baseDefault .VELO_CHANGE = .invalid := by
  have ha : d.isVelocityChangeAvailable = false := by
    revert h
    unfold Dynamic.isVelocityChangeAvailable
    generalize d.dynamicType = t
    cases t <;> decide
  simp [Dynamic.getProperty, Dynamic.propertyDefault, ha]

/-- Instance of C6: a marking of kind `MF` with the override 5 stored. -/
theorem veloChange_absent_of_not_accent_witness :
    (dynEntry (Dynamic.sample .MF (-1) 5).dynamicType).accent = false
    ∧ (Dynamic.sample .MF (-1) 5).isVelocityChangeAvailable = false
    ∧ (Dynamic.sample .MF (-1) 5).getProperty (fun _ => .invalid) .VELO_CHANGE = .invalid
    ∧ (Dynamic.sample .MF (-1) 5).propertyDefault (fun _ => .invalid) .VELO_CHANGE = .invalid :=
  ⟨by decide,
   veloChange_absent_of_not_accent (fun _ => .invalid) (fun _ => .invalid)
     (Dynamic.sample .MF (-1) 5) (by decide)⟩

/-! ## Kind resolution from text: results -/

/-- Row `i` of `dynList` records the kind `DynamicType(i)`. -/
theorem dynList_type_eq (i : Nat) (e : Dyn) (h : dynList[i]? = some e) :
    e.type = DynamicType.ofIndex i := by
  have hi : i < 31 := by
    have := (List.getElem?_eq_some.mp h).1
    simpa [dynList] using this
  interval_cases i <;> simp [dynList] at h <;> subst h <;> rfl

/-- A match returned by the loop is at an index not before the start, is a
row of the list, passes the test, and no earlier row passes it. -/
theorem setDynamicTypeLoop_some (toXml : DynamicType → String) (tag : String) :
    ∀ (l : List Dyn) (k i : Nat) (e : Dyn),
      setDynamicTypeLoop toXml tag l k = some (i, e) →
      k ≤ i ∧ l[i - k]? = some e ∧ tagMatches toXml tag i e
      ∧ ∀ (j : Nat) (e' : Dyn), k ≤ j → j < i → l[j - k]? = some e' →
          ¬ tagMatches toXml tag j e' := by
  intro l
  induction l with
  | nil => intro k i e h; simp [setDynamicTypeLoop] at h
  | cons a rest ih =>
    intro k i e h
    unfold setDynamicTypeLoop at h
    by_cases hm : tagMatches toXml tag k a
    · rw [if_pos hm] at h
      obtain ⟨rfl, rfl⟩ : k = i ∧ a = e := by simpa using h
      refine ⟨le_refl _, by simp, hm, ?_⟩
      intro j e' hkj hji
      omega
    · rw [if_neg hm] at h
      obtain ⟨hk, hget, hmatch, hfirst⟩ := ih (k + 1) i e h
      have hik : i - k = (i - (k + 1)) + 1 := by omega
      refine ⟨by omega, by rw [hik]; simpa using hget, hmatch, ?_⟩
      intro j e' hkj hji hj
      by_cases hjk : j = k
      · subst hjk
        have : a = e' := by simpa using hj
        subst this
        exact hm
      · have hjk' : j - k = (j - (k + 1)) + 1 := by omega
        rw [hjk'] at hj
        exact hfirst j e' (by omega) hji (by simpa using hj)

/-- When the loop finds nothing, no row passes the test. -/
theorem setDynamicTypeLoop_none (toXml : DynamicType → String) (tag : String) :
    ∀ (l : List Dyn) (k : Nat),
      setDynamicTypeLoop toXml tag l k = none →
      ∀ (j : Nat) (e' : Dyn), l[j]? = some e' → ¬ tagMatches toXml tag (k + j) e' := by
  intro l
  induction l with
  | nil => intro k _ j e' hj; simp at hj
  | cons a rest ih =>
    intro k h j e' hj
    unfold setDynamicTypeLoop at h
    by_cases hm : tagMatches toXml tag k a
    · rw [if_pos hm] at h; exact absurd h (by simp)
    · rw [if_neg hm] at h
      cases j with
      | zero =>
        have : a = e' := by simpa using hj
        subst this
        simpa using hm
      | succ j =>
        have := ih (k + 1) h j e' (by simpa using hj)
        have hk : k + (j + 1) = k + 1 + j := by omega
        rw [hk]; exact this

/-- The loop returns the first row that passes the test. -/
theorem setDynamicTypeLoop_first (toXml : DynamicType → String) (tag : String)
    (i : Nat) (e : Dyn) (he : dynList[i]? = some e) (hm : tagMatches toXml tag i e)
    (hfirst : ∀ (j : Nat) (e' : Dyn), j < i → dynList[j]? = some e' →
      ¬ tagMatches toXml tag j e') :
    setDynamicTypeLoop toXml tag dynList 0 = some (i, e) := by
  cases hl : setDynamicTypeLoop toXml tag dynList 0 with
  | none =>
    have := setDynamicTypeLoop_none toXml tag dynList 0 hl i e he
    rw [Nat.zero_add] at this
    exact absurd hm this
  | some p =>
    obtain ⟨i', e'⟩ := p
    obtain ⟨_, hget, hmatch, hnone⟩ := setDynamicTypeLoop_some toXml tag dynList 0 i' e' hl
    rw [Nat.sub_zero] at hget
    have hii : i' = i := by
      rcases Nat.lt_trichotomy i' i with hlt | heq | hgt
      · exact absurd hmatch (hfirst i' e' hlt hget)
      · exact heq
      · exact absurd hm (hnone i e (Nat.zero_le _) hgt (by simpa using he))
    subst hii
    rw [hget] at he
    cases he
    rfl

/-- C4: `setDynamicType(tag)`. If a row of the catalog matches `tag` by its
canonical short tag or by its glyph text, the kind becomes that of the first
such row in table order and the display text becomes the glyph text of that
row; if no row matches, the kind becomes `OTHER` and the display text becomes
`tag` itself. With the short tags of the kinds, `sfz` gives the kind `SFZ`
with its glyph text, and `poco f` gives `OTHER` with the text `poco f`. -/
theorem setDynamicType_spec (d : Dynamic) :
    (∀ (toXml : DynamicType → String) (tag : String),
      (∀ (i : Nat) (e : Dyn), dynList[i]? = some e → tagMatches toXml tag i e →
        (∀ (j : Nat) (e' : Dyn), j < i → dynList[j]? = some e' →
          ¬ tagMatches toXml tag j e') →
        (d.setDynamicType toXml tag).dynamicType = e.type
        ∧ (d.setDynamicType toXml tag).dynamicType = DynamicType.ofIndex i
        ∧ (d.setDynamicType toXml tag).xmlText = e.text)
      ∧ ((∀ (i : Nat) (e : Dyn), dynList[i]? = some e → ¬ tagMatches toXml tag i e) →
        (d.setDynamicType toXml tag).dynamicType = .OTHER
        ∧ (d.setDynamicType toXml tag).xmlText = tag))
    ∧ ((d.setDynamicType dynamicTypeToXml "sfz").dynamicType = .SFZ
      ∧ (d.setDynamicType dynamicTypeToXml "sfz").xmlText = dynamicText .SFZ)
    ∧ ((d.setDynamicType dynamicTypeToXml "poco f").dynamicType = .OTHER
      ∧ (d.setDynamicType dynamicTypeToXml "poco f").xmlText = "poco f") := by
  refine ⟨fun toXml tag => ⟨?_, ?_⟩, ?_, ?_⟩
  · intro i e he hm hfirst
    have hl := setDynamicTypeLoop_first toXml tag i e he hm hfirst
    simp [Dynamic.setDynamicType, hl, Dynamic.dynamicType, Dynamic.setDynamicTypeEnum,
      Dynamic.setXmlText, dynList_type_eq i e he]
  · intro hno
    have hl : setDynamicTypeLoop toXml tag dynList 0 = none := by
      cases hl : setDynamicTypeLoop toXml tag dynList 0 with
      | none => rfl
      | some p =>
        obtain ⟨i', e'⟩ := p
        obtain ⟨_, hget, hmatch, _⟩ := setDynamicTypeLoop_some toXml tag dynList 0 i' e' hl
        exact absurd hmatch (hno i' e' (by simpa using hget))
    simp [Dynamic.setDynamicType, hl, Dynamic.dynamicType, Dynamic.setDynamicTypeEnum,
      Dynamic.setXmlText]
  · have hl : setDynamicTypeLoop dynamicTypeToXml "sfz" dynList 0
        = some (18, dynEntry .SFZ) := by decide
    simp [Dynamic.setDynamicType, hl, Dynamic.dynamicType, Dynamic.setDynamicTypeEnum,
      Dynamic.setXmlText, dynamicText, DynamicType.ofIndex]
  · have hl : setDynamicTypeLoop dynamicTypeToXml "poco f" dynList 0 = none := by decide
    simp [Dynamic.setDynamicType, hl, Dynamic.dynamicType, Dynamic.setDynamicTypeEnum,
      Dynamic.setXmlText]

/-- Instance of C4: for the tag `ff` the first matching row is row 10, the row
of `FF`, and for the tag `crescendo molto` no row matches. -/
theorem setDynamicType_spec_witness :
    (((Dynamic.new true).setDynamicType dynamicTypeToXml "ff").dynamicType = .FF
      ∧ ((Dynamic.new true).setDynamicType dynamicTypeToXml "ff").dynamicType
          = DynamicType.ofIndex 10
      ∧ ((Dynamic.new true).setDynamicType dynamicTypeToXml "ff").xmlText
          = "<sym>dynamicForte</sym><sym>dynamicForte</sym>")
    ∧ (((Dynamic.new true).setDynamicType dynamicTypeToXml "crescendo molto").dynamicType
          = .OTHER
      ∧ ((Dynamic.new true).setDynamicType dynamicTypeToXml "crescendo molto").xmlText
          = "crescendo molto") :=
  ⟨((setDynamicType_spec (Dynamic.new true)).1 dynamicTypeToXml "ff").1 10
      ⟨.FF, 112, 0, false, "<sym>dynamicForte</sym><sym>dynamicForte</sym>"⟩
      (by decide) (by decide)
      (by
        intro j e' hj he
        interval_cases j <;> simp [dynList] at he <;> subst he <;> decide),
   ((setDynamicType_spec (Dynamic.new true)).1 dynamicTypeToXml "crescendo molto").2
      (by
        intro i e he
        have hi : i < 31 := by
          have := (List.getElem?_eq_some.mp he).1
          simpa [dynList] using this
        interval_cases i <;> simp [dynList] at he <;> subst he <;> decide)⟩

/-! ## Arithmetic of `double`: results -/

/-- The nearest integer is within 1/2 of the value. -/
theorem roundNearestEven_sub_le (t : ℚ) : |((roundNearestEven t : Int) : ℚ) - t| ≤ 1 / 2 := by
  have h0 := Int.fract_nonneg t
  have h1 := Int.fract_lt_one t
  have hf : (⌊t⌋ : ℚ) = t - Int.fract t := by
    rw [Int.fract]; ring
  unfold roundNearestEven
  split_ifs with ha hb hc
  · rw [hf, abs_le]; constructor <;> linarith
  · push_cast; rw [hf, abs_le]; constructor <;> linarith
  · have : Int.fract t = 1 / 2 := le_antisymm (not_lt.mp hb) (not_lt.mp ha)
    rw [hf, abs_le]; constructor <;> linarith
  · have : Int.fract t = 1 / 2 := le_antisymm (not_lt.mp hb) (not_lt.mp ha)
    push_cast; rw [hf, abs_le]; constructor <;> linarith

/-- An integer that is less than 1/2 away from the value is the nearest one. -/
theorem roundNearestEven_eq_of_abs_lt (t : ℚ) (m : Int) (h : |t - m| < 1 / 2) :
    roundNearestEven t = m := by
  have h1 := roundNearestEven_sub_le t
  rw [abs_lt] at h
  rw [abs_le] at h1
  have h2 : |((roundNearestEven t - m : Int) : ℚ)| < 1 := by
    push_cast
    rw [abs_lt]
    constructor <;> linarith [h.1, h.2, h1.1, h1.2]
  have h3 : |roundNearestEven t - m| < 1 := by exact_mod_cast h2
  have h4 := Int.abs_lt_one_iff.mp h3
  omega

/-- The powers of two are positive. -/
theorem two_zpow_pos (k : Int) : (0 : ℚ) < 2 ^ k := zpow_pos (by norm_num) k

/-- A value has at most 53 bits above the unit in the last place. -/
theorem ulpExponent_le (x : ℚ) : |x| < 2 ^ (ulpExponent x + 53) := by
  have h := Int.lt_zpow_succ_log_self (R := ℚ) (b := 2) (by norm_num) |x|
  have hle : Int.log 2 |x| + 1 ≤ ulpExponent x + 53 := by
    unfold ulpExponent
    have := le_max_left (Int.log 2 |x| - 52) (-1074)
    omega
  calc |x| < ((2 : ℕ) : ℚ) ^ (Int.log 2 |x| + 1) := h
    _ = (2 : ℚ) ^ (Int.log 2 |x| + 1) := by norm_num
    _ ≤ 2 ^ (ulpExponent x + 53) := zpow_le_zpow_right₀ (by norm_num) hle

/-- The rounding error is at most half a unit in the last place. -/
theorem roundDouble_sub_le (x : ℚ) : |roundDouble x - x| ≤ 2 ^ ulpExponent x / 2 := by
  by_cases hx : x = 0
  · rw [hx]
    simp only [roundDouble, if_true, sub_zero, abs_zero]
    exact le_of_lt (div_pos (two_zpow_pos _) (by norm_num))
  · have hp := two_zpow_pos (ulpExponent x)
    have h := roundNearestEven_sub_le (x / 2 ^ ulpExponent x)
    have : roundDouble x - x
        = (((roundNearestEven (x / 2 ^ ulpExponent x) : Int) : ℚ) - x / 2 ^ ulpExponent x)
          * 2 ^ ulpExponent x := by
      rw [roundDouble, if_neg hx]
      field_simp
    rw [this, abs_mul, abs_of_pos hp]
    calc |((roundNearestEven (x / 2 ^ ulpExponent x) : Int) : ℚ) - x / 2 ^ ulpExponent x|
          * 2 ^ ulpExponent x
        ≤ (1 / 2 : ℚ) * 2 ^ ulpExponent x := mul_le_mul_of_nonneg_right h (le_of_lt hp)
      _ = 2 ^ ulpExponent x / 2 := by ring

/-- The relative rounding error in the normal range is at most `2 ^ -53`. -/
theorem roundDouble_rel_error (x : ℚ) (hx : 2 ^ (-1022 : Int) ≤ |x|) :
    |roundDouble x - x| ≤ |x| * 2 ^ (-53 : Int) := by
  have hx0 : 0 < |x| := lt_of_lt_of_le (two_zpow_pos _) hx
  have hlog : (-1022 : Int) ≤ Int.log 2 |x| := by
    rw [← Int.zpow_le_iff_le_log (by norm_num) hx0]
    simpa using hx
  have hu : ulpExponent x = Int.log 2 |x| - 52 := by
    unfold ulpExponent
    rw [max_eq_left]; omega
  have h1 := roundDouble_sub_le x
  have h2 := Int.zpow_log_le_self (R := ℚ) (b := 2) (by norm_num) hx0
  have h2' : (2 : ℚ) ^ Int.log 2 |x| ≤ |x| := by simpa using h2
  calc |roundDouble x - x| ≤ 2 ^ ulpExponent x / 2 := h1
    _ = 2 ^ Int.log 2 |x| * 2 ^ (-53 : Int) := by
        rw [hu, show Int.log 2 |x| - 52 = Int.log 2 |x| + (-52) by ring, zpow_add₀ (by norm_num)]
        norm_num
        ring
    _ ≤ |x| * 2 ^ (-53 : Int) := by
        apply mul_le_mul_of_nonneg_right h2' (le_of_lt (two_zpow_pos _))

/-- The rounding of a value in the binade of `2 ^ e`, from the nearest multiple of the
unit in the last place. -/
theorem roundDouble_eq (x : ℚ) (e m : Int) (h1 : 2 ^ e ≤ |x|) (h2 : |x| < 2 ^ (e + 1))
    (hu : -1074 ≤ e - 52) (hm : |x / 2 ^ (e - 52) - m| < 1 / 2) :
    roundDouble x = m * 2 ^ (e - 52) := by
  have hx0 : 0 < |x| := lt_of_lt_of_le (two_zpow_pos _) h1
  have hx : x ≠ 0 := abs_pos.mp hx0
  have hlog : Int.log 2 |x| = e := by
    apply le_antisymm
    · have := (Int.lt_zpow_iff_log_lt (R := ℚ) (b := 2) (by norm_num) hx0 (x := e + 1)).mp
        (by simpa using h2)
      omega
    · exact (Int.zpow_le_iff_le_log (R := ℚ) (b := 2) (by norm_num) hx0).mp (by simpa using h1)
  have hue : ulpExponent x = e - 52 := by
    unfold ulpExponent
    rw [hlog, max_eq_left hu]
  rw [roundDouble, if_neg hx, hue, roundNearestEven_eq_of_abs_lt _ m hm]

/-- An integer of less than 53 bits times a power of two within the range of the
exponent is a double. -/
theorem roundDouble_exact (m k : Int) (hm : |m| < 2 ^ 53) (hk : -1074 ≤ k) :
    roundDouble ((m : ℚ) * 2 ^ k) = (m : ℚ) * 2 ^ k := by
  by_cases hm0 : m = 0
  · simp [hm0, roundDouble]
  have hx : (m : ℚ) * 2 ^ k ≠ 0 := mul_ne_zero (by exact_mod_cast hm0) (ne_of_gt (two_zpow_pos k))
  have hx0 : 0 < |(m : ℚ) * 2 ^ k| := abs_pos.mpr hx
  have hlog : Int.log 2 |(m : ℚ) * 2 ^ k| < k + 53 := by
    rw [← Int.lt_zpow_iff_log_lt (by norm_num) hx0]
    rw [abs_mul, abs_of_pos (two_zpow_pos k), zpow_add₀ (by norm_num), mul_comm]
    push_cast
    apply mul_lt_mul_of_pos_left _ (two_zpow_pos k)
    rw [show (53 : Int) = ((53 : ℕ) : Int) from rfl, zpow_natCast]
    exact_mod_cast hm
  have huk : ulpExponent ((m : ℚ) * 2 ^ k) ≤ k := by
    unfold ulpExponent
    apply max_le <;> omega
  obtain ⟨n, hn⟩ : ∃ n : ℕ, k - ulpExponent ((m : ℚ) * 2 ^ k) = n :=
    ⟨(k - ulpExponent ((m : ℚ) * 2 ^ k)).toNat, by omega⟩
  have hdiv : (m : ℚ) * 2 ^ k / 2 ^ ulpExponent ((m : ℚ) * 2 ^ k) = ((m * 2 ^ n : Int) : ℚ) := by
    rw [mul_div_assoc, ← zpow_sub₀ (by norm_num), hn]
    push_cast
    rw [zpow_natCast]
  rw [roundDouble, if_neg hx, hdiv, roundNearestEven_eq_of_abs_lt _ (m * 2 ^ n) (by simp)]
  rw [← hdiv]
  field_simp

/-- A value of the form `m * 2 ^ k`, with `m` of less than 53 bits, is a double. -/
theorem roundDouble_of_eq (x : ℚ) (m k : Int) (hx : x = (m : ℚ) * 2 ^ k) (hm : |m| < 2 ^ 53)
    (hk : -1074 ≤ k) : roundDouble x = x := by
  rw [hx]; exact roundDouble_exact m k hm hk

/-- The rounding of a positive value in the binade of `2 ^ e`. -/
theorem roundDouble_eq_pos (x : ℚ) (e m : Int) (h1 : 2 ^ e ≤ x) (h2 : x < 2 ^ (e + 1))
    (hu : -1074 ≤ e - 52) (hm1 : (m : ℚ) - 1 / 2 < x / 2 ^ (e - 52))
    (hm2 : x / 2 ^ (e - 52) < (m : ℚ) + 1 / 2) :
    roundDouble x = m * 2 ^ (e - 52) := by
  have hx : 0 < x := lt_of_lt_of_le (two_zpow_pos _) h1
  apply roundDouble_eq x e m (by rwa [abs_of_pos hx]) (by rwa [abs_of_pos hx]) hu
  rw [abs_lt]; constructor <;> linarith

/-- The rounding of a negative value in the binade of `2 ^ e`. -/
theorem roundDouble_eq_neg (x : ℚ) (e m : Int) (h1 : 2 ^ e ≤ -x) (h2 : -x < 2 ^ (e + 1))
    (hu : -1074 ≤ e - 52) (hm1 : (m : ℚ) - 1 / 2 < x / 2 ^ (e - 52))
    (hm2 : x / 2 ^ (e - 52) < (m : ℚ) + 1 / 2) :
    roundDouble x = m * 2 ^ (e - 52) := by
  have hx : x < 0 := by linarith [lt_of_lt_of_le (two_zpow_pos e) h1]
  apply roundDouble_eq x e m (by rwa [abs_of_neg hx]) (by rwa [abs_of_neg hx]) hu
  rw [abs_lt]; constructor <;> linarith

/-- The double written `0.8`. -/
theorem roundDouble_four_fifths : roundDouble (4 / 5) = 3602879701896397 / 4503599627370496 := by
  rw [roundDouble_eq_pos (4 / 5) (-1) 7205759403792794 (by norm_num) (by norm_num) (by norm_num)
    (by norm_num) (by norm_num)]
  norm_num

/-- The rounding error is at most the relative error `2 ^ -53` plus half the least
positive double. -/
theorem roundDouble_error (x : ℚ) :
    |roundDouble x - x| ≤ |x| * 2 ^ (-53 : Int) + 2 ^ (-1075 : Int) := by
  have h1 := roundDouble_sub_le x
  by_cases hx : x = 0
  · rw [hx]
    simp only [roundDouble, if_true, sub_zero, abs_zero, zero_mul, zero_add]
    exact le_of_lt (two_zpow_pos _)
  have hx0 : 0 < |x| := abs_pos.mpr hx
  rcases le_total (Int.log 2 |x| - 52) (-1074) with hle | hle
  · have hu : ulpExponent x = -1074 := by unfold ulpExponent; exact max_eq_right hle
    rw [hu] at h1
    have : (2 : ℚ) ^ (-1074 : Int) / 2 = 2 ^ (-1075 : Int) := by norm_num
    rw [this] at h1
    have : 0 ≤ |x| * 2 ^ (-53 : Int) := mul_nonneg (abs_nonneg x) (le_of_lt (two_zpow_pos _))
    linarith
  · have hu : ulpExponent x = Int.log 2 |x| - 52 := by unfold ulpExponent; exact max_eq_left hle
    have h2 := Int.zpow_log_le_self (R := ℚ) (b := 2) (by norm_num) hx0
    have h2' : (2 : ℚ) ^ Int.log 2 |x| ≤ |x| := by simpa using h2
    have h3 : (2 : ℚ) ^ ulpExponent x / 2 = 2 ^ Int.log 2 |x| * 2 ^ (-53 : Int) := by
      rw [hu, show Int.log 2 |x| - 52 = Int.log 2 |x| + (-52) by ring, zpow_add₀ (by norm_num)]
      norm_num
      ring
    have h4 : (2 : ℚ) ^ Int.log 2 |x| * 2 ^ (-53 : Int) ≤ |x| * 2 ^ (-53 : Int) :=
      mul_le_mul_of_nonneg_right h2' (le_of_lt (two_zpow_pos _))
    have := two_zpow_pos (-1075)
    rw [h3] at h1
    linarith

/-- The double product of the double written `0.8` and `5 * k` is `4 * k`. -/
theorem fmul_four_fifths (k : Nat) (hk0 : 0 < k) (hk : 4 * k < 2 ^ 53) :
    fmul (roundDouble (4 / 5)) ((5 * k : Nat) : ℚ) = ((4 * k : Nat) : ℚ) := by
  have hkq : (0 : ℚ) < k := by exact_mod_cast hk0
  have hx : roundDouble (4 / 5) * ((5 * k : Nat) : ℚ) = 4 * k + k * 2 ^ (-52 : Int) := by
    rw [roundDouble_four_fifths]; push_cast; norm_num; ring
  have h4k : (0 : ℚ) < ((4 * k : Nat) : ℚ) := by exact_mod_cast (by omega : 0 < 4 * k)
  -- the binade of 4k
  have hlo := Int.zpow_log_le_self (R := ℚ) (b := 2) (by norm_num) h4k
  have hhi := Int.lt_zpow_succ_log_self (R := ℚ) (b := 2) (by norm_num) ((4 * k : Nat) : ℚ)
  have he0 : (0 : Int) ≤ Int.log 2 ((4 * k : Nat) : ℚ) := by
    rw [← Int.zpow_le_iff_le_log (by norm_num) h4k]
    simp only [zpow_zero]
    exact_mod_cast (by omega : 1 ≤ 4 * k)
  obtain ⟨n, hn⟩ : ∃ n : Nat, Int.log 2 ((4 * k : Nat) : ℚ) = n :=
    ⟨(Int.log 2 ((4 * k : Nat) : ℚ)).toNat, by omega⟩
  rw [hn] at hlo hhi
  have hlo' : 2 ^ n ≤ 4 * k := by
    have : ((2 ^ n : Nat) : ℚ) ≤ ((4 * k : Nat) : ℚ) := by
      push_cast; simpa [zpow_natCast] using hlo
    exact_mod_cast this
  have hhi' : 4 * k < 2 ^ (n + 1) := by
    have : ((4 * k : Nat) : ℚ) < ((2 ^ (n + 1) : Nat) : ℚ) := by
      push_cast
      have h := hhi
      rw [show ((n : Int) + 1) = ((n + 1 : Nat) : Int) by push_cast; ring, zpow_natCast] at h
      simpa using h
    exact_mod_cast this
  have hn52 : n ≤ 52 := by
    by_contra hcon
    have : 2 ^ 53 ≤ 2 ^ n := Nat.pow_le_pow_right (by norm_num) (by omega)
    omega
  have hk2 : 2 * k < 2 ^ n := by
    have : 2 ^ (n + 1) = 2 * 2 ^ n := by ring
    omega
  have hpn : (0 : ℚ) < 2 ^ n := by positivity
  have hk2q : (2 : ℚ) * k < 2 ^ n := by exact_mod_cast hk2
  have hloq : (2 : ℚ) ^ n ≤ 4 * k := by exact_mod_cast hlo'
  have hhiq : (4 : ℚ) * k + 1 ≤ 2 ^ (n + 1) := by exact_mod_cast hhi'
  have hsmall : (k : ℚ) * 2 ^ (-52 : Int) < 1 := by
    have : (k : ℚ) < 2 ^ 51 := by
      have : k < 2 ^ 51 := by omega
      exact_mod_cast this
    have h2 : (0 : ℚ) < 2 ^ (-52 : Int) := two_zpow_pos _
    calc (k : ℚ) * 2 ^ (-52 : Int) < 2 ^ 51 * 2 ^ (-52 : Int) :=
          mul_lt_mul_of_pos_right this h2
      _ < 1 := by norm_num
  -- the scaled value and its integer part
  have hscale : (4 * (k : ℚ) + k * 2 ^ (-52 : Int)) / 2 ^ ((n : Int) - 52)
      = ((4 * k * 2 ^ (52 - n) : Nat) : ℚ) + k / 2 ^ n := by
    have e1 : (2 : ℚ) ^ ((n : Int) - 52) = 2 ^ n / 2 ^ 52 := by
      rw [zpow_sub₀ (by norm_num), zpow_natCast]; norm_num
    have e2 : (2 : ℚ) ^ (52 - n) = 2 ^ 52 / 2 ^ n := by
      rw [eq_div_iff (ne_of_gt hpn), ← pow_add, Nat.sub_add_cancel hn52]
    rw [e1]
    push_cast
    rw [e2]
    field_simp
    norm_num
    ring
  unfold fmul
  rw [hx, roundDouble_eq_pos _ (n : Int) ((4 * k * 2 ^ (52 - n) : Nat) : Int)]
  · have e1 : (2 : ℚ) ^ ((n : Int) - 52) = 2 ^ n / 2 ^ 52 := by
      rw [zpow_sub₀ (by norm_num), zpow_natCast]; norm_num
    have e2 : (2 : ℚ) ^ (52 - n) = 2 ^ 52 / 2 ^ n := by
      rw [eq_div_iff (ne_of_gt hpn), ← pow_add, Nat.sub_add_cancel hn52]
    rw [e1]
    push_cast
    rw [e2]
    field_simp
  · rw [zpow_natCast]
    have := mul_nonneg (le_of_lt hkq) (le_of_lt (two_zpow_pos (-52)))
    linarith
  · rw [show ((n : Int) + 1) = ((n + 1 : Nat) : Int) by push_cast; ring, zpow_natCast]
    linarith
  · omega
  · rw [hscale]
    have : (0 : ℚ) < k / 2 ^ n := div_pos hkq hpn
    push_cast
    linarith
  · rw [hscale]
    have : (k : ℚ) / 2 ^ n < 1 / 2 := by
      rw [div_lt_iff₀ hpn]
      linarith
    push_cast
    linarith

/-- The exponent of the unit in the last place, from the binade of `x`. -/
theorem ulpExponent_eq (x : ℚ) (e : Int) (h1 : 2 ^ e ≤ |x|) (h2 : |x| < 2 ^ (e + 1))
    (hu : -1074 ≤ e - 52) : ulpExponent x = e - 52 := by
  have hx0 : 0 < |x| := lt_of_lt_of_le (two_zpow_pos _) h1
  have hlog : Int.log 2 |x| = e := by
    apply le_antisymm
    · have := (Int.lt_zpow_iff_log_lt (R := ℚ) (b := 2) (by norm_num) hx0 (x := e + 1)).mp
        (by simpa using h2)
      omega
    · exact (Int.zpow_le_iff_le_log (R := ℚ) (b := 2) (by norm_num) hx0).mp (by simpa using h1)
  unfold ulpExponent
  rw [hlog, max_eq_left hu]

/-- A value halfway between two integers goes to the even one. -/
theorem roundNearestEven_tie (n : Int) :
    roundNearestEven ((n : ℚ) + 1 / 2) = if n % 2 = 0 then n else n + 1 := by
  have hfl : ⌊(n : ℚ) + 1 / 2⌋ = n := by
    rw [Int.floor_eq_iff]
    constructor <;> linarith
  have hfr : Int.fract ((n : ℚ) + 1 / 2) = 1 / 2 := by
    rw [Int.fract, hfl]
    ring
  unfold roundNearestEven
  rw [hfr, hfl, if_neg (lt_irrefl _), if_neg (lt_irrefl _)]

/-- The rounding of a positive value halfway between two doubles. -/
theorem roundDouble_eq_tie_pos (x : ℚ) (e n : Int) (h1 : 2 ^ e ≤ x) (h2 : x < 2 ^ (e + 1))
    (hu : -1074 ≤ e - 52) (ht : x / 2 ^ (e - 52) = (n : ℚ) + 1 / 2) :
    roundDouble x = ((if n % 2 = 0 then n else n + 1 : Int) : ℚ) * 2 ^ (e - 52) := by
  have hx : 0 < x := lt_of_lt_of_le (two_zpow_pos _) h1
  have hue := ulpExponent_eq x e (by rwa [abs_of_pos hx]) (by rwa [abs_of_pos hx]) hu
  rw [roundDouble, if_neg (ne_of_gt hx), hue, ht, roundNearestEven_tie]

/-- Zero is a double. -/
theorem roundDouble_zero : roundDouble 0 = 0 := by
  simp [roundDouble]

/-- One is a double. -/
theorem roundDouble_one : roundDouble 1 = 1 :=
  roundDouble_of_eq 1 1 0 (by norm_num) (by norm_num) (by norm_num)

/-- The rounding of a value that is not negative is not negative. -/
theorem roundDouble_nonneg (x : ℚ) (h : 0 ≤ x) : 0 ≤ roundDouble x := by
  unfold roundDouble
  split_ifs with h0
  · exact le_refl _
  · have ht : 0 ≤ x / 2 ^ ulpExponent x := div_nonneg h (le_of_lt (two_zpow_pos _))
    have hfl : (0 : Int) ≤ ⌊x / 2 ^ ulpExponent x⌋ := Int.floor_nonneg.mpr ht
    have hr : (0 : Int) ≤ roundNearestEven (x / 2 ^ ulpExponent x) := by
      unfold roundNearestEven
      split_ifs <;> omega
    have hr2 : (0 : ℚ) ≤ ((roundNearestEven (x / 2 ^ ulpExponent x) : Int) : ℚ) := by
      exact_mod_cast hr
    exact mul_nonneg hr2 (le_of_lt (two_zpow_pos _))

/-- The double written `1.3`. -/
theorem roundDouble_thirteen_tenths :
    roundDouble (13 / 10) = 5854679515581645 / 4503599627370496 := by
  rw [roundDouble_eq_pos (13 / 10) 0 5854679515581645 (by norm_num) (by norm_num) (by norm_num)
    (by norm_num) (by norm_num)]
  norm_num

/-- The double written `0.5`. -/
theorem roundDouble_half : roundDouble (1 / 2) = 1 / 2 :=
  roundDouble_of_eq _ 1 (-1) (by norm_num) (by norm_num) (by norm_num)

/-- One is far below the largest double. -/
theorem one_le_maxDouble : (1 : ℚ) ≤ maxDouble := by
  unfold maxDouble
  norm_num

/-- The quotient of a double other than zero by itself is one. -/
theorem fdiv_self (t : ℚ) (h : t ≠ 0) : fdiv t t = 1 := by
  unfold fdiv
  rw [div_self h, roundDouble_one]

/-! ## Length of the velocity change: results -/

/-- The conversion to `int` of a non-negative value is its floor. -/
theorem truncToInt_of_nonneg (x : ℚ) (h : 0 ≤ x) : truncToInt x = ⌊x⌋ := by
  simp [truncToInt, h]

/-- The conversion to `int` gives 0 exactly for the values strictly between
-1 and 1. -/
theorem doubleToInt_eq_zero_iff (x : ℚ) : doubleToInt x = some 0 ↔ (-1 < x ∧ x < 1) := by
  unfold doubleToInt truncToInt
  constructor
  · intro h
    split_ifs at h with hr h0
    · have h1 : ⌊x⌋ = 0 := by simpa using h
      rw [Int.floor_eq_zero_iff] at h1
      exact ⟨by linarith [h1.1], h1.2⟩
    · have h1 : ⌈x⌉ = 0 := by simpa using h
      rw [Int.ceil_eq_iff] at h1
      push_neg at h0
      exact ⟨by simpa using h1.1, by linarith⟩
  · rintro ⟨h1, h2⟩
    have hr : -(2 ^ 31 : ℚ) - 1 < x ∧ x < 2 ^ 31 := ⟨by linarith, by linarith⟩
    rw [if_pos hr]
    split_ifs with h0
    · congr 1
      rw [Int.floor_eq_zero_iff]
      exact ⟨h0, h2⟩
    · congr 1
      rw [Int.ceil_eq_iff]
      push_neg at h0
      exact ⟨by simpa using h1, by simpa using le_of_lt h0⟩

/-- The conversion to `int` of a non-negative value below `2 ^ 31` is its
floor. -/
theorem doubleToInt_of_nonneg (x : ℚ) (h0 : 0 ≤ x) (h1 : x < 2 ^ 31) :
    doubleToInt x = some ⌊x⌋ := by
  unfold doubleToInt
  rw [if_pos ⟨by linarith, h1⟩, truncToInt_of_nonneg x h0]

/-- The multipliers are positive. -/
theorem speedMult_pos (s : DynamicSpeed) : 0 < speedMult s := by
  cases s
  · simp only [speedMult, roundDouble_thirteen_tenths]; norm_num
  · simp only [speedMult, roundDouble_four_fifths]; norm_num
  · simp only [speedMult, roundDouble_half]; norm_num

/-- The product handed to the conversion is not negative for tempi that are
not negative. -/
theorem velocityChangeProduct_nonneg (tempo defaultTempo : ℚ) (division : Nat) (d : Dynamic)
    (ht : 0 ≤ tempo) (hd : 0 ≤ defaultTempo) :
    0 ≤ d.velocityChangeProduct tempo defaultTempo division := by
  unfold Dynamic.velocityChangeProduct fmul fdiv
  apply roundDouble_nonneg
  apply mul_nonneg
  · exact roundDouble_nonneg _ (div_nonneg ht hd)
  · apply roundDouble_nonneg
    exact mul_nonneg (le_of_lt (speedMult_pos _)) (Nat.cast_nonneg _)

/-- The factor `speedMult * double(division)` is far below the largest double
when the division is an `int`. -/
theorem fmul_speedMult_le (s : DynamicSpeed) (division : Nat) (hdiv : division < 2 ^ 31) :
    |fmul (speedMult s) (division : ℚ)| ≤ maxDouble := by
  have hD : ((division : Nat) : ℚ) < 2 ^ 31 := by exact_mod_cast hdiv
  have hD0 : (0 : ℚ) ≤ (division : ℚ) := Nat.cast_nonneg _
  have hs : speedMult s ≤ 2 := by
    cases s
    · simp only [speedMult, roundDouble_thirteen_tenths]; norm_num
    · simp only [speedMult, roundDouble_four_fifths]; norm_num
    · simp only [speedMult, roundDouble_half]; norm_num
  have hs0 := speedMult_pos s
  have hx0 : 0 ≤ speedMult s * (division : ℚ) := mul_nonneg (le_of_lt hs0) hD0
  have hx : speedMult s * (division : ℚ) ≤ 2 ^ 32 := by nlinarith
  have he := roundDouble_error (speedMult s * (division : ℚ))
  rw [abs_of_nonneg hx0] at he
  have h53 : (2 : ℚ) ^ (-53 : Int) ≤ 1 := by norm_num
  have h1075 : (2 : ℚ) ^ (-1075 : Int) ≤ 1 := by
    rw [zpow_neg]
    exact inv_le_one_of_one_le₀ (one_le_zpow₀ (by norm_num) (by norm_num))
  have hq0 : 0 ≤ fmul (speedMult s) (division : ℚ) := roundDouble_nonneg _ hx0
  rw [abs_of_nonneg hq0]
  have hup : fmul (speedMult s) (division : ℚ) ≤ 2 ^ 33 + 1 := by
    unfold fmul
    have h2 := (abs_le.mp he).2
    nlinarith
  refine le_trans hup ?_
  unfold maxDouble
  norm_num

/-- The length for a change in velocity other than zero, a marking on a
segment, a default tempo other than zero, a finite ratio and a division that
is an `int`. -/
theorem velocityChangeLength_eq (tempo defaultTempo : ℚ) (division : Nat) (d : Dynamic)
    (hc : d.changeInVelocity ≠ 0) (hseg : d.hasSegment = true) (hd : defaultTempo ≠ 0)
    (hfin : |fdiv tempo defaultTempo| ≤ maxDouble) (hdiv : division < 2 ^ 31) :
    d.velocityChangeLength tempo defaultTempo division
      = doubleToInt (d.velocityChangeProduct tempo defaultTempo division) := by
  have hq := fmul_speedMult_le d.velChangeSpeed division hdiv
  rw [Dynamic.velocityChangeLength, if_neg hc, if_neg (by simp [hseg]), if_neg hd,
    if_neg (by
      rintro (h | h)
      · exact absurd hfin (not_le.mpr h)
      · exact absurd hq (not_le.mpr h))]

/-- Without a segment, and with a change in velocity other than zero, the code
dereferences a null pointer. -/
theorem velocityChangeLength_no_segment (tempo defaultTempo : ℚ) (division : Nat)
    (d : Dynamic) (hc : d.changeInVelocity ≠ 0) (hseg : d.hasSegment = false) :
    d.velocityChangeLength tempo defaultTempo division = none := by
  rw [Dynamic.velocityChangeLength, if_neg hc, if_pos (by simp [hseg])]

/-- The rounding error of a product of two roundings: with `r` the rounding of
`ρ` and `q` within the relative error `2 ^ -53` of `a`, the rounded product
`r * q` is within `ρ * a * 2 ^ -50 + (4 * a + 1) * 2 ^ -1075` of `ρ * a`. -/
theorem fmul_roundDouble_error (ρ a q : ℚ) (hρ : 0 ≤ ρ) (ha : 0 ≤ a) (hq0 : 0 ≤ q)
    (hq : |q - a| ≤ a * 2 ^ (-53 : Int)) :
    |fmul (roundDouble ρ) q - ρ * a|
      ≤ ρ * a * 2 ^ (-50 : Int) + (4 * a + 1) * 2 ^ (-1075 : Int) := by
  obtain ⟨ε, hε⟩ : ∃ ε : ℚ, ε = 2 ^ (-53 : Int) := ⟨_, rfl⟩
  obtain ⟨η, hη⟩ : ∃ η : ℚ, η = 2 ^ (-1075 : Int) := ⟨_, rfl⟩
  have hε0 : 0 < ε := by rw [hε]; exact two_zpow_pos _
  have hε1 : ε ≤ 1 := by rw [hε]; norm_num
  have hη0 : 0 < η := by rw [hη]; exact two_zpow_pos _
  have h50 : (2 : ℚ) ^ (-50 : Int) = 8 * ε := by rw [hε]; norm_num
  rw [h50, ← hη]
  rw [← hε] at hq
  obtain ⟨r, hr⟩ : ∃ r : ℚ, r = roundDouble ρ := ⟨_, rfl⟩
  have hr0 : 0 ≤ r := by rw [hr]; exact roundDouble_nonneg ρ hρ
  have hrρ : |r - ρ| ≤ ρ * ε + η := by
    have h := roundDouble_error ρ
    rw [abs_of_nonneg hρ, ← hε, ← hη, ← hr] at h
    exact h
  have hP : |fmul r q - r * q| ≤ r * q * ε + η := by
    have h := roundDouble_error (r * q)
    rw [abs_of_nonneg (mul_nonneg hr0 hq0), ← hε, ← hη] at h
    exact h
  rw [← hr]
  have hq2 : q ≤ 2 * a := by
    have h := (abs_le.mp hq).2
    nlinarith
  have e1 : |r * q - ρ * a| ≤ 3 * (ρ * a * ε) + 2 * a * η := by
    have hsplit : r * q - ρ * a = (r - ρ) * q + ρ * (q - a) := by ring
    rw [hsplit]
    refine le_trans (abs_add _ _) ?_
    rw [abs_mul, abs_mul, abs_of_nonneg hq0, abs_of_nonneg hρ]
    have t1 : |r - ρ| * q ≤ (ρ * ε + η) * (2 * a) :=
      mul_le_mul hrρ hq2 hq0 (by positivity)
    have t2 : ρ * |q - a| ≤ ρ * (a * ε) := mul_le_mul_of_nonneg_left hq hρ
    nlinarith
  have e2 : r * q ≤ 4 * (ρ * a) + 2 * a * η := by
    have h := (abs_le.mp e1).2
    have hρa : 0 ≤ ρ * a := mul_nonneg hρ ha
    have : ρ * a * ε ≤ ρ * a := by nlinarith
    linarith
  have e3 : |fmul r q - r * q| ≤ 4 * (ρ * a * ε) + 2 * a * η + η := by
    refine le_trans hP ?_
    have hρa : 0 ≤ ρ * a := mul_nonneg hρ ha
    have haη : 0 ≤ 2 * a * η := by positivity
    have h1 : r * q * ε ≤ (4 * (ρ * a) + 2 * a * η) * ε :=
      mul_le_mul_of_nonneg_right e2 (le_of_lt hε0)
    have h2 : 2 * a * η * ε ≤ 2 * a * η := by nlinarith
    nlinarith
  have hsum : fmul r q - ρ * a = (fmul r q - r * q) + (r * q - ρ * a) := by ring
  rw [hsum]
  refine le_trans (abs_add _ _) ?_
  have hρa : 0 ≤ ρ * a * ε := by positivity
  linarith

/-- The factor `speedMult * double(division)` is within the relative error
`2 ^ -53` of the exact product. -/
theorem fmul_speedMult_error (s : DynamicSpeed) (division : Nat) :
    |fmul (speedMult s) (division : ℚ) - speedMult s * (division : ℚ)|
      ≤ speedMult s * (division : ℚ) * 2 ^ (-53 : Int) := by
  have hs0 := speedMult_pos s
  have hs : 1 / 2 ≤ speedMult s := by
    cases s
    · simp only [speedMult, roundDouble_thirteen_tenths]; norm_num
    · simp only [speedMult, roundDouble_four_fifths]; norm_num
    · simp only [speedMult, roundDouble_half]; norm_num
  rcases Nat.eq_zero_or_pos division with h0 | hpos
  · subst h0
    simp [fmul, roundDouble_zero]
  · have hD : (1 : ℚ) ≤ (division : ℚ) := by exact_mod_cast hpos
    have hx : 1 / 2 ≤ speedMult s * (division : ℚ) := by nlinarith
    have h := roundDouble_rel_error (speedMult s * (division : ℚ)) (by
      rw [abs_of_nonneg (by linarith)]
      refine le_trans ?_ hx
      norm_num)
    rw [abs_of_nonneg (show (0 : ℚ) ≤ speedMult s * (division : ℚ) by linarith)] at h
    exact h

/-- The double product is the exact product
`tempo / defaultTempo * (speedMult * division)` up to the relative error
`2 ^ -50` and the absolute error `2 ^ -1040`. -/
theorem velocityChangeProduct_error (tempo defaultTempo : ℚ) (division : Nat) (d : Dynamic)
    (ht : 0 ≤ tempo) (hd : 0 ≤ defaultTempo) (hdiv : division < 2 ^ 31) :
    |d.velocityChangeProduct tempo defaultTempo division
        - tempo / defaultTempo * (speedMult d.velChangeSpeed * (division : ℚ))|
      ≤ tempo / defaultTempo * (speedMult d.velChangeSpeed * (division : ℚ)) * 2 ^ (-50 : Int)
        + 2 ^ (-1040 : Int) := by
  have hD : ((division : Nat) : ℚ) < 2 ^ 31 := by exact_mod_cast hdiv
  have hD0 : (0 : ℚ) ≤ (division : ℚ) := Nat.cast_nonneg _
  have hs0 := speedMult_pos d.velChangeSpeed
  have hs : speedMult d.velChangeSpeed ≤ 2 := by
    cases d.velChangeSpeed
    · simp only [speedMult, roundDouble_thirteen_tenths]; norm_num
    · simp only [speedMult, roundDouble_four_fifths]; norm_num
    · simp only [speedMult, roundDouble_half]; norm_num
  have ha0 : 0 ≤ speedMult d.velChangeSpeed * (division : ℚ) := mul_nonneg (le_of_lt hs0) hD0
  have ha : speedMult d.velChangeSpeed * (division : ℚ) ≤ 2 ^ 32 := by nlinarith
  have h := fmul_roundDouble_error (tempo / defaultTempo)
    (speedMult d.velChangeSpeed * (division : ℚ))
    (fmul (speedMult d.velChangeSpeed) (division : ℚ)) (div_nonneg ht hd) ha0
    (roundDouble_nonneg _ ha0) (fmul_speedMult_error _ _)
  unfold Dynamic.velocityChangeProduct fdiv
  refine le_trans h ?_
  have hη : (4 * (speedMult d.velChangeSpeed * (division : ℚ)) + 1) * 2 ^ (-1075 : Int)
      ≤ 2 ^ (-1040 : Int) := by
    have e : (2 : ℚ) ^ (-1040 : Int) = 2 ^ (35 : Int) * 2 ^ (-1075 : Int) := by
      rw [← zpow_add₀ (by norm_num : (2 : ℚ) ≠ 0)]; norm_num
    rw [e]
    refine mul_le_mul_of_nonneg_right ?_ (le_of_lt (two_zpow_pos _))
    have : (2 : ℚ) ^ (35 : Int) = 34359738368 := by norm_num
    rw [this]
    norm_num at ha ⊢
    linarith
  linarith

/-- C7 fails as stated: a marking of kind `SFZ` on a segment (change in
velocity -18), at `FAST` speed, with the tempo `1/512` against the default
tempo 2 and 480 ticks per division, has a velocity change different from zero
and a positive tempo ratio, and its length is zero: every operation is exact
in `double` (`1/512 / 2 = 1/1024`, `0.5 * 480 = 240`, `1/1024 * 240 = 15/64`),
and `int(0.234375)` is 0. -/
theorem velocityChangeLength_zero_counterexample :
    ({ Dynamic.sample .SFZ (-1) 128 with _velChangeSpeed := .FAST } : Dynamic).changeInVelocity
        = -18
    ∧ (0 : ℚ) < fdiv (1 / 512) 2
    ∧ ({ Dynamic.sample .SFZ (-1) 128 with _velChangeSpeed := .FAST } :
        Dynamic).velocityChangeProduct (1 / 512) 2 480 = 15 / 64
    ∧ ({ Dynamic.sample .SFZ (-1) 128 with _velChangeSpeed := .FAST } :
        Dynamic).velocityChangeLength (1 / 512) 2 480 = some 0 := by
  have hr : fdiv (1 / 512) 2 = 1 / 1024 := by
    unfold fdiv
    rw [roundDouble_of_eq _ 1 (-10) (by norm_num) (by norm_num) (by norm_num)]
    norm_num
  have hq : fmul (speedMult .FAST) ((480 : Nat) : ℚ) = 240 := by
    unfold fmul speedMult
    rw [roundDouble_half, roundDouble_of_eq _ 240 0 (by norm_num) (by norm_num) (by norm_num)]
    norm_num
  have hP : ({ Dynamic.sample .SFZ (-1) 128 with _velChangeSpeed := .FAST } :
      Dynamic).velocityChangeProduct (1 / 512) 2 480 = 15 / 64 := by
    unfold Dynamic.velocityChangeProduct
    simp only [Dynamic.velChangeSpeed]
    rw [hr, hq]
    unfold fmul
    rw [roundDouble_of_eq _ 15 (-6) (by norm_num) (by norm_num) (by norm_num)]
    norm_num
  refine ⟨by decide, by rw [hr]; norm_num, hP, ?_⟩
  rw [velocityChangeLength_eq _ _ _ _ (by decide) rfl (by norm_num)
    (by rw [hr, abs_of_pos (by norm_num)]; exact le_trans (by norm_num) one_le_maxDouble)
    (by norm_num), hP, doubleToInt_eq_zero_iff]
  constructor <;> norm_num

/-- C7, amended: for a marking on a segment, positive tempi whose ratio is a
finite double, and a division that is an `int`, the length is zero exactly
when the change in velocity is zero or the product
`ratio * (speedMult * division)`, as computed in `double`, is below one tick
(the conversion to `int` truncates it). -/
theorem velocityChangeLength_eq_zero_iff (tempo defaultTempo : ℚ) (division : Nat)
    (d : Dynamic) (hseg : d.hasSegment = true) (ht : 0 < tempo) (hd : 0 < defaultTempo)
    (hfin : fdiv tempo defaultTempo ≤ maxDouble) (hdiv : division < 2 ^ 31) :
    d.velocityChangeLength tempo defaultTempo division = some 0
      ↔ (d.changeInVelocity = 0
        ∨ d.velocityChangeProduct tempo defaultTempo division < 1) := by
  have hP := velocityChangeProduct_nonneg tempo defaultTempo division d (le_of_lt ht)
    (le_of_lt hd)
  by_cases hc : d.changeInVelocity = 0
  · simp [Dynamic.velocityChangeLength, hc]
  · have hr0 : 0 ≤ fdiv tempo defaultTempo :=
      roundDouble_nonneg _ (div_nonneg (le_of_lt ht) (le_of_lt hd))
    rw [velocityChangeLength_eq _ _ _ _ hc hseg (ne_of_gt hd)
      (by rw [abs_of_nonneg hr0]; exact hfin) hdiv, doubleToInt_eq_zero_iff]
    simp only [hc, false_or]
    constructor
    · intro h; exact h.2
    · intro h; exact ⟨by linarith, h⟩

/-- Instance of the amended C7: kind `SFZ` on a segment, `NORMAL` speed,
tempo 2 against the default tempo 2, 480 ticks per division. -/
theorem velocityChangeLength_eq_zero_iff_witness :
    (Dynamic.sample .SFZ (-1) 128).velocityChangeLength 2 2 480 = some 0
      ↔ ((Dynamic.sample .SFZ (-1) 128).changeInVelocity = 0
        ∨ (Dynamic.sample .SFZ (-1) 128).velocityChangeProduct 2 2 480 < 1) :=
  velocityChangeLength_eq_zero_iff 2 2 480 (Dynamic.sample .SFZ (-1) 128)
    rfl (by norm_num) (by norm_num)
    (by rw [fdiv_self 2 (by norm_num)]; exact one_le_maxDouble) (by norm_num)

/-- The factor `0.8 * 480` is 384 in `double`. -/
theorem fmul_normal_480 : fmul (speedMult .NORMAL) ((480 : Nat) : ℚ) = 384 := by
  have h := fmul_four_fifths 96 (by norm_num) (by norm_num)
  simp only [speedMult]
  rw [show ((480 : Nat) : ℚ) = ((5 * 96 : Nat) : ℚ) by norm_num, h]
  norm_num

/-- At the tempo ratio 1 and `NORMAL` speed, with a division `5 * k` that is
an `int`, the double product is `4 * k`. -/
theorem velocityChangeProduct_unit (t : ℚ) (division k : Nat) (d : Dynamic) (ht : t ≠ 0)
    (hs : d.velChangeSpeed = .NORMAL) (hk : division = 5 * k) (hdiv : division < 2 ^ 31) :
    d.velocityChangeProduct t t division = ((4 * k : Nat) : ℚ) := by
  unfold Dynamic.velocityChangeProduct
  simp only [hs, fdiv_self t ht, speedMult]
  rcases Nat.eq_zero_or_pos k with h0 | hpos
  · subst h0
    subst hk
    simp [fmul, roundDouble_zero]
  · have hk4 : 4 * k < 2 ^ 53 := by omega
    rw [hk, fmul_four_fifths k hpos hk4]
    unfold fmul
    rw [one_mul]
    have h := roundDouble_exact ((4 * k : Nat) : Int) 0 (by
      rw [abs_of_nonneg (by positivity)]
      exact_mod_cast hk4) (by norm_num)
    simpa using h

/-- C8 fails as stated: for kind `SFZ` on a segment, `NORMAL` speed and 480
ticks per division, the tempo `1/128` against the default tempo 2 (ratio
`1/256`) gives 1 tick, not `1/256 * 0.8 * 480 = 1.5`, and the doubled tempo
`1/64` gives 3 ticks, not twice as many. In `double`, `0.8 * 480` is 384 and
the products `1/256 * 384` and `1/128 * 384` are exact. -/
theorem velocityChangeLength_linear_counterexample :
    (Dynamic.sample .SFZ (-1) 128).changeInVelocity = -18
    ∧ (Dynamic.sample .SFZ (-1) 128).velocityChangeLength (1 / 128) 2 480 = some 1
    ∧ ((1 / 128 : ℚ) / 2) * (4 / 5) * 480 = 3 / 2
    ∧ (Dynamic.sample .SFZ (-1) 128).velocityChangeLength (1 / 64) 2 480 = some 3 := by
  have hc : (Dynamic.sample .SFZ (-1) 128).changeInVelocity ≠ 0 := by decide
  have hr1 : fdiv (1 / 128) 2 = 1 / 256 := by
    unfold fdiv
    rw [roundDouble_of_eq _ 1 (-8) (by norm_num) (by norm_num) (by norm_num)]
    norm_num
  have hr2 : fdiv (1 / 64) 2 = 1 / 128 := by
    unfold fdiv
    rw [roundDouble_of_eq _ 1 (-7) (by norm_num) (by norm_num) (by norm_num)]
    norm_num
  have hP1 : (Dynamic.sample .SFZ (-1) 128).velocityChangeProduct (1 / 128) 2 480 = 3 / 2 := by
    unfold Dynamic.velocityChangeProduct
    simp only [Dynamic.sample, Dynamic.new, Dynamic.velChangeSpeed]
    rw [hr1, fmul_normal_480]
    unfold fmul
    rw [roundDouble_of_eq _ 3 (-1) (by norm_num) (by norm_num) (by norm_num)]
    norm_num
  have hP2 : (Dynamic.sample .SFZ (-1) 128).velocityChangeProduct (1 / 64) 2 480 = 3 := by
    unfold Dynamic.velocityChangeProduct
    simp only [Dynamic.sample, Dynamic.new, Dynamic.velChangeSpeed]
    rw [hr2, fmul_normal_480]
    unfold fmul
    rw [roundDouble_of_eq _ 3 0 (by norm_num) (by norm_num) (by norm_num)]
    norm_num
  have hf1 : ⌊(3 / 2 : ℚ)⌋ = 1 := by
    rw [Int.floor_eq_iff]
    constructor <;> norm_num
  have hf2 : ⌊(3 : ℚ)⌋ = 3 := by
    rw [Int.floor_eq_iff]
    constructor <;> norm_num
  refine ⟨by decide, ?_, by norm_num, ?_⟩
  · rw [velocityChangeLength_eq _ _ _ _ hc rfl (by norm_num)
      (by rw [hr1, abs_of_pos (by norm_num)]; exact le_trans (by norm_num) one_le_maxDouble)
      (by norm_num), hP1, doubleToInt_of_nonneg _ (by norm_num) (by norm_num), hf1]
  · rw [velocityChangeLength_eq _ _ _ _ hc rfl (by norm_num)
      (by rw [hr2, abs_of_pos (by norm_num)]; exact le_trans (by norm_num) one_le_maxDouble)
      (by norm_num), hP2, doubleToInt_of_nonneg _ (by norm_num) (by norm_num), hf2]

/-- C8, amended: for a change in velocity different from zero, a marking on a
segment, positive tempi whose ratio is a finite double, a division that is an
`int` and a product below `2 ^ 31`, the length in ticks is the product
`ratio * (speedMult * division)` computed in `double` and truncated to a
whole number. The multipliers are the doubles nearest to 1.3 (`SLOW`) and 0.8
(`NORMAL`), and 0.5 (`FAST`); the double product differs from the exact
product `tempo / defaultTempo * (speedMult * division)` by the relative error
`2 ^ -50` and the absolute error `2 ^ -1040` at most; the length lies less
than one tick below the double product and equals it when that is whole. At
the tempo ratio 1 and `NORMAL` speed, with a division `5 * k`, it is `4 * k`,
which is `0.8 * division`. -/
theorem velocityChangeLength_spec (tempo defaultTempo : ℚ) (division : Nat) (d : Dynamic)
    (hc : d.changeInVelocity ≠ 0) (hseg : d.hasSegment = true)
    (ht : 0 < tempo) (hd : 0 < defaultTempo)
    (hfin : fdiv tempo defaultTempo ≤ maxDouble) (hdiv : division < 2 ^ 31)
    (hrange : d.velocityChangeProduct tempo defaultTempo division < 2 ^ 31) :
    (speedMult .SLOW = roundDouble (13 / 10) ∧ speedMult .NORMAL = roundDouble (4 / 5)
      ∧ speedMult .FAST = roundDouble (1 / 2)
      ∧ roundDouble (13 / 10) = 5854679515581645 / 4503599627370496
      ∧ roundDouble (4 / 5) = 3602879701896397 / 4503599627370496
      ∧ roundDouble (1 / 2) = 1 / 2)
    ∧ d.velocityChangeProduct tempo defaultTempo division
        = roundDouble (roundDouble (tempo / defaultTempo)
            * roundDouble (speedMult d.velChangeSpeed * (division : ℚ)))
    ∧ |d.velocityChangeProduct tempo defaultTempo division
          - tempo / defaultTempo * (speedMult d.velChangeSpeed * (division : ℚ))|
        ≤ tempo / defaultTempo * (speedMult d.velChangeSpeed * (division : ℚ))
            * 2 ^ (-50 : Int) + 2 ^ (-1040 : Int)
    ∧ d.velocityChangeLength tempo defaultTempo division
        = some ⌊d.velocityChangeProduct tempo defaultTempo division⌋
    ∧ ((⌊d.velocityChangeProduct tempo defaultTempo division⌋ : Int) : ℚ)
        ≤ d.velocityChangeProduct tempo defaultTempo division
    ∧ d.velocityChangeProduct tempo defaultTempo division
        < ((⌊d.velocityChangeProduct tempo defaultTempo division⌋ : Int) : ℚ) + 1
    ∧ (∀ n : Int, d.velocityChangeProduct tempo defaultTempo division = (n : ℚ) →
        d.velocityChangeLength tempo defaultTempo division = some n)
    ∧ (tempo = defaultTempo → d.velChangeSpeed = .NORMAL → ∀ k : Nat, division = 5 * k →
        d.velocityChangeLength tempo defaultTempo division = some ((4 * k : Nat) : Int)
        ∧ (((4 * k : Nat) : Int) : ℚ) = 4 / 5 * (division : ℚ)) := by
  have hP := velocityChangeProduct_nonneg tempo defaultTempo division d (le_of_lt ht)
    (le_of_lt hd)
  have hr0 : 0 ≤ fdiv tempo defaultTempo :=
    roundDouble_nonneg _ (div_nonneg (le_of_lt ht) (le_of_lt hd))
  have hlen : d.velocityChangeLength tempo defaultTempo division
      = some ⌊d.velocityChangeProduct tempo defaultTempo division⌋ := by
    rw [velocityChangeLength_eq _ _ _ _ hc hseg (ne_of_gt hd)
      (by rw [abs_of_nonneg hr0]; exact hfin) hdiv]
    exact doubleToInt_of_nonneg _ hP hrange
  refine ⟨⟨rfl, rfl, rfl, roundDouble_thirteen_tenths, roundDouble_four_fifths,
    roundDouble_half⟩, rfl,
    velocityChangeProduct_error tempo defaultTempo division d (le_of_lt ht) (le_of_lt hd) hdiv,
    hlen, Int.floor_le _, Int.lt_floor_add_one _, ?_, ?_⟩
  · intro n hn
    rw [hlen, hn, Int.floor_intCast]
  · intro hte hs k hk
    have hprod := velocityChangeProduct_unit defaultTempo division k d (ne_of_gt hd) hs hk hdiv
    rw [hte] at hlen
    refine ⟨?_, ?_⟩
    · have hfl : ⌊((4 * k : Nat) : ℚ)⌋ = ((4 * k : Nat) : Int) := Int.floor_natCast _
      rw [hte, hlen, hprod, hfl]
    · rw [hk]
      push_cast
      ring

/-- Instance of the amended C8: kind `SFZ` on a segment, `NORMAL` speed, tempo
ratio 1 and 480 ticks per division give 384 ticks, which is `0.8 * 480`. -/
theorem velocityChangeLength_spec_witness :
    (Dynamic.sample .SFZ (-1) 128).velocityChangeLength 2 2 480 = some 384 :=
  ((velocityChangeLength_spec 2 2 480 (Dynamic.sample .SFZ (-1) 128)
    (by decide) rfl (by norm_num) (by norm_num)
    (by rw [fdiv_self 2 (by norm_num)]; exact one_le_maxDouble) (by norm_num)
    (by
      rw [velocityChangeProduct_unit 2 480 96 (Dynamic.sample .SFZ (-1) 128) (by norm_num) rfl
        (by norm_num) (by norm_num)]
      norm_num)).2.2.2.2.2.2.2 rfl rfl 96 (by norm_num)).1

/-- The product is rounded before it is truncated. At the tempo `40/60` (the
double nearest to 2/3) against the default tempo 2, with `NORMAL` speed and
480 ticks per division, the length is 128 ticks, although the exact product
of the doubles involved is below 128; at the tempo that is the double nearest
to 1/192 the length is 1 tick, although the exact product is below 1. -/
theorem velocityChangeLength_rounded :
    roundDouble (2 / 3) = 6004799503160661 / 9007199254740992
    ∧ (Dynamic.sample .SFZ (-1) 128).velocityChangeLength (roundDouble (2 / 3)) 2 480
        = some 128
    ∧ roundDouble (2 / 3) / 2 * (speedMult .NORMAL * 480) < 128
    ∧ roundDouble (1 / 192) = 6004799503160661 / 1152921504606846976
    ∧ (Dynamic.sample .SFZ (-1) 128).velocityChangeLength (roundDouble (1 / 192)) 2 480
        = some 1
    ∧ roundDouble (1 / 192) / 2 * (speedMult .NORMAL * 480) < 1 := by
  have hc : (Dynamic.sample .SFZ (-1) 128).changeInVelocity ≠ 0 := by decide
  have ht1 : roundDouble (2 / 3) = 6004799503160661 / 9007199254740992 := by
    rw [roundDouble_eq_pos (2 / 3) (-1) 6004799503160661 (by norm_num) (by norm_num)
      (by norm_num) (by norm_num) (by norm_num)]
    norm_num
  have ht2 : roundDouble (1 / 192) = 6004799503160661 / 1152921504606846976 := by
    rw [roundDouble_eq_pos (1 / 192) (-8) 6004799503160661 (by norm_num) (by norm_num)
      (by norm_num) (by norm_num) (by norm_num)]
    norm_num
  have hr1 : fdiv (6004799503160661 / 9007199254740992) 2
      = 6004799503160661 / 18014398509481984 := by
    unfold fdiv
    rw [roundDouble_of_eq _ 6004799503160661 (-54) (by norm_num) (by norm_num) (by norm_num)]
    norm_num
  have hr2 : fdiv (6004799503160661 / 1152921504606846976) 2
      = 6004799503160661 / 2305843009213693952 := by
    unfold fdiv
    rw [roundDouble_of_eq _ 6004799503160661 (-61) (by norm_num) (by norm_num) (by norm_num)]
    norm_num
  have hP1 : (Dynamic.sample .SFZ (-1) 128).velocityChangeProduct
      (6004799503160661 / 9007199254740992) 2 480 = 128 := by
    unfold Dynamic.velocityChangeProduct
    simp only [Dynamic.sample, Dynamic.new, Dynamic.velChangeSpeed]
    rw [hr1, fmul_normal_480]
    unfold fmul
    rw [roundDouble_eq_tie_pos _ 6 9007199254740991 (by norm_num) (by norm_num) (by norm_num)
      (by norm_num)]
    norm_num
  have hP2 : (Dynamic.sample .SFZ (-1) 128).velocityChangeProduct
      (6004799503160661 / 1152921504606846976) 2 480 = 1 := by
    unfold Dynamic.velocityChangeProduct
    simp only [Dynamic.sample, Dynamic.new, Dynamic.velChangeSpeed]
    rw [hr2, fmul_normal_480]
    unfold fmul
    rw [roundDouble_eq_tie_pos _ (-1) 9007199254740991 (by norm_num) (by norm_num)
      (by norm_num) (by norm_num)]
    norm_num
  have hf1 : ⌊(128 : ℚ)⌋ = 128 := by
    rw [Int.floor_eq_iff]
    constructor <;> norm_num
  have hf2 : ⌊(1 : ℚ)⌋ = 1 := by
    rw [Int.floor_eq_iff]
    constructor <;> norm_num
  have hs : speedMult .NORMAL = 3602879701896397 / 4503599627370496 := roundDouble_four_fifths
  refine ⟨ht1, ?_, ?_, ht2, ?_, ?_⟩
  · rw [ht1, velocityChangeLength_eq _ _ _ _ hc rfl (by norm_num)
      (by rw [hr1, abs_of_pos (by norm_num)]; exact le_trans (by norm_num) one_le_maxDouble)
      (by norm_num), hP1, doubleToInt_of_nonneg _ (by norm_num) (by norm_num), hf1]
  · rw [ht1, hs]; norm_num
  · rw [ht2, velocityChangeLength_eq _ _ _ _ hc rfl (by norm_num)
      (by rw [hr2, abs_of_pos (by norm_num)]; exact le_trans (by norm_num) one_le_maxDouble)
      (by norm_num), hP2, doubleToInt_of_nonneg _ (by norm_num) (by norm_num), hf2]
  · rw [ht2, hs]; norm_num

/-! ## Autoplacement: results -/

/-- The casts between kinds and indices are inverse on the kinds. -/
theorem ofIndex_toNat (K : DynamicType) : DynamicType.ofIndex K.toNat = K := by
  cases K <;> rfl

/-- The casts between kinds and indices are inverse on the indices of the
table. -/
theorem toNat_ofIndex (i : Nat) (h : i < 31) : (DynamicType.ofIndex i).toNat = i := by
  interval_cases i <;> rfl

/-- The row of a kind is the row at its index. -/
theorem dynList_getElem?_toNat (K : DynamicType) : dynList[K.toNat]? = some (dynEntry K) := by
  cases K <;> rfl

/-- Every catalog delta is below the sentinel 128. -/
theorem dynEntry_changeInVelocity_lt (K : DynamicType) : (dynEntry K).changeInVelocity < 128 := by
  cases K <;> decide

/-- Kind resolution of the short tag of a kind gives back the kind, with the
glyph text of its row, provided the short tags are pairwise distinct and none
of them is the glyph text of a row. -/
theorem setDynamicType_toXml (toXml : DynamicType → String)
    (hinj : Function.Injective toXml)
    (htext : ∀ (K : DynamicType) (e : Dyn), e ∈ dynList → e.text ≠ toXml K)
    (d : Dynamic) (K : DynamicType) :
    d.setDynamicType toXml (toXml K) = (d.setDynamicTypeEnum K).setXmlText (dynEntry K).text := by
  have hl : setDynamicTypeLoop toXml (toXml K) dynList 0 = some (K.toNat, dynEntry K) := by
    apply setDynamicTypeLoop_first toXml (toXml K) K.toNat (dynEntry K)
      (dynList_getElem?_toNat K)
    · left; rw [ofIndex_toNat]
    · intro j e' hj he' hm
      have hj31 : j < 31 := by
        have := (List.getElem?_eq_some.mp he').1
        simpa [dynList] using this
      rcases hm with h | h
      · have := hinj h
        have h2 : j = K.toNat := by rw [← this, toNat_ofIndex j hj31]
        omega
      · exact htext K e' (List.getElem?_mem he') h
  simp [Dynamic.setDynamicType, hl, ofIndex_toNat]

/-- Reading a `subtype` element resolves the kind from its text. -/
theorem readElement_subtype (cv : TConv) (d : Dynamic) (s : String) :
    d.readElement cv ⟨"subtype", .text s⟩ = d.setDynamicType cv.dynamicTypeToXml s := by
  simp [Dynamic.readElement, XmlElement.readElementText]

/-- Reading a `velocity` element stores its integer. -/
theorem readElement_velocity (cv : TConv) (d : Dynamic) (n : Int) :
    d.readElement cv ⟨"velocity", .int n⟩ = { d with _velocity := n } := by
  simp [Dynamic.readElement, XmlElement.readInt]

/-- Reading a `dynType` element stores the decoded range. -/
theorem readElement_dynType (cv : TConv) (d : Dynamic) (s : String) :
    d.readElement cv ⟨"dynType", .text s⟩
      = { d with _dynRange := cv.dynamicRangeFromXml s .STAFF } := by
  simp [Dynamic.readElement, XmlElement.readElementText]

/-- Reading a `veloChange` element stores its integer. -/
theorem readElement_veloChange (cv : TConv) (d : Dynamic) (n : Int) :
    d.readElement cv ⟨"veloChange", .int n⟩ = { d with _changeInVelocity := n } := by
  simp [Dynamic.readElement, XmlElement.readInt]

/-- Reading a `veloChangeSpeed` element stores the decoded speed. -/
theorem readElement_veloChangeSpeed (cv : TConv) (d : Dynamic) (s : String) :
    d.readElement cv ⟨"veloChangeSpeed", .text s⟩
      = { d with _velChangeSpeed := cv.dynamicSpeedFromXml s .NORMAL } := by
  simp [Dynamic.readElement, XmlElement.readElementText]

/-- Reading a `text` element is delegated to the text base, which stores the
display text. -/
theorem readElement_text (cv : TConv) (d : Dynamic) (s : String) :
    d.readElement cv ⟨"text", .text s⟩ = d.setXmlText s := by
  simp [Dynamic.readElement, Dynamic.textBaseReadProperties, XmlElement.readElementText]

/-- Reading a concatenation of tag streams reads them one after the other. -/
theorem read_append (cv : TConv) (d : Dynamic) (l₁ l₂ : List XmlElement) :
    d.read cv (l₁ ++ l₂) = (d.read cv l₁).read cv l₂ := by
  simp [Dynamic.read, List.foldl_append]

/-- Reading back the element written for the kind resolves its short tag. -/
theorem read_writeProperty_dynamicType (cv : TConv) (omitDefaults : Bool)
    (baseGet baseDefault : Pid → PropertyValue) (hdef : baseDefault .DYNAMIC_TYPE = .invalid)
    (m d : Dynamic) :
    d.read cv (m.writeProperty cv omitDefaults baseGet baseDefault .DYNAMIC_TYPE)
      = d.setDynamicType cv.dynamicTypeToXml (cv.dynamicTypeToXml m._dynamicType) := by
  simp [Dynamic.writeProperty, Dynamic.getProperty, Dynamic.propertyDefault, hdef,
    propertyContent, propertyName, Dynamic.read, readElement_subtype]

/-- Reading back what is written for the velocity: the effective velocity is
stored, unless the writer left out the default -1. -/
theorem read_writeProperty_velocity (cv : TConv) (omitDefaults : Bool)
    (baseGet baseDefault : Pid → PropertyValue) (m d : Dynamic) :
    d.read cv (m.writeProperty cv omitDefaults baseGet baseDefault .VELOCITY)
      = if omitDefaults = true ∧ m.velocity = -1 then d
        else { d with _velocity := m.velocity } := by
  by_cases h : omitDefaults = true ∧ m.velocity = -1
  · simp [Dynamic.writeProperty, Dynamic.getProperty, Dynamic.propertyDefault, h, Dynamic.read]
  · rw [if_neg h]
    have h' : ¬ (omitDefaults = true ∧ PropertyValue.int m.velocity = PropertyValue.int (-1)) := by
      simpa using h
    simp only [Dynamic.writeProperty, Dynamic.getProperty, Dynamic.propertyDefault, if_neg h',
      propertyContent, propertyName, Dynamic.read, List.foldl_cons, List.foldl_nil,
      readElement_velocity]

/-- Reading back what is written for the dynamic range. -/
theorem read_writeProperty_dynamicRange (cv : TConv) (omitDefaults : Bool)
    (baseGet baseDefault : Pid → PropertyValue) (m d : Dynamic) :
    d.read cv (m.writeProperty cv omitDefaults baseGet baseDefault .DYNAMIC_RANGE)
      = if omitDefaults = true ∧ m._dynRange = .PART then d
        else { d with _dynRange :=
          cv.dynamicRangeFromXml (cv.dynamicRangeToXml m._dynRange) .STAFF } := by
  by_cases h : omitDefaults = true ∧ m._dynRange = .PART
  · simp [Dynamic.writeProperty, Dynamic.getProperty, Dynamic.propertyDefault, h, Dynamic.read]
  · rw [if_neg h]
    have h' : ¬ (omitDefaults = true
        ∧ PropertyValue.dynamicRange m._dynRange = PropertyValue.dynamicRange .PART) := by
      simpa using h
    simp only [Dynamic.writeProperty, Dynamic.getProperty, Dynamic.propertyDefault, if_neg h',
      propertyContent, propertyName, Dynamic.read, List.foldl_cons, List.foldl_nil,
      readElement_dynType]

/-- Reading back what is written for the velocity change of a marking for
which the change is available. -/
theorem read_writeProperty_veloChange (cv : TConv) (omitDefaults : Bool)
    (baseGet baseDefault : Pid → PropertyValue) (m d : Dynamic)
    (ha : m.isVelocityChangeAvailable = true) :
    d.read cv (m.writeProperty cv omitDefaults baseGet baseDefault .VELO_CHANGE)
      = if omitDefaults = true ∧ m.changeInVelocity = (dynEntry m.dynamicType).changeInVelocity
        then d
        else { d with _changeInVelocity := m.changeInVelocity } := by
  by_cases h : omitDefaults = true
      ∧ m.changeInVelocity = (dynEntry m.dynamicType).changeInVelocity
  · simp [Dynamic.writeProperty, Dynamic.getProperty, Dynamic.propertyDefault, h, ha,
      Dynamic.read]
  · rw [if_neg h]
    have h' : ¬ (omitDefaults = true ∧ PropertyValue.int m.changeInVelocity
        = PropertyValue.int (dynEntry m.dynamicType).changeInVelocity) := by
      simpa using h
    simp only [Dynamic.writeProperty, Dynamic.getProperty, Dynamic.propertyDefault, ha, if_true,
      if_neg h', propertyContent, propertyName, Dynamic.read, List.foldl_cons, List.foldl_nil,
      readElement_veloChange]

/-- Reading back what is written for the speed of the velocity change. -/
theorem read_writeProperty_veloChangeSpeed (cv : TConv) (omitDefaults : Bool)
    (baseGet baseDefault : Pid → PropertyValue) (m d : Dynamic) :
    d.read cv (m.writeProperty cv omitDefaults baseGet baseDefault .VELO_CHANGE_SPEED)
      = if omitDefaults = true ∧ m._velChangeSpeed = .NORMAL then d
        else { d with _velChangeSpeed :=
          cv.dynamicSpeedFromXml (cv.dynamicSpeedToXml m._velChangeSpeed) .NORMAL } := by
  by_cases h : omitDefaults = true ∧ m._velChangeSpeed = .NORMAL
  · simp [Dynamic.writeProperty, Dynamic.getProperty, Dynamic.propertyDefault, h, Dynamic.read]
  · rw [if_neg h]
    have h' : ¬ (omitDefaults = true
        ∧ PropertyValue.dynamicSpeed m._velChangeSpeed = PropertyValue.dynamicSpeed .NORMAL) := by
      simpa using h
    simp only [Dynamic.writeProperty, Dynamic.getProperty, Dynamic.propertyDefault, if_neg h',
      propertyContent, propertyName, Dynamic.read, List.foldl_cons, List.foldl_nil,
      readElement_veloChangeSpeed]

/-- Reading back the inherited text properties. -/
theorem read_textBaseWriteProperties (cv : TConv) (m d : Dynamic) (writeText : Bool) :
    d.read cv (m.textBaseWriteProperties writeText)
      = if writeText = true then d.setXmlText m.xmlText else d := by
  cases writeText <;>
    simp [Dynamic.textBaseWriteProperties, Dynamic.read, readElement_text]

/-- Storing the effective velocity of a marking, or leaving the fresh -1 when
the effective velocity is -1, reproduces the effective velocity. -/
theorem velocity_reproduced (m d : Dynamic) (hk : d._dynamicType = m._dynamicType)
    (hv : d._velocity = m.velocity) : d.velocity = m.velocity := by
  unfold Dynamic.velocity at hv ⊢
  simp only [Dynamic.dynamicType] at hv ⊢
  rw [hk, hv]
  by_cases h : m._velocity ≤ 0
  · simp [h]
  · simp [h]

/-- Storing the effective velocity change of a marking, or leaving the fresh
sentinel when it equals the catalog delta, reproduces the effective change. -/
theorem changeInVelocity_reproduced (m d : Dynamic) (hk : d._dynamicType = m._dynamicType)
    (hv : d._changeInVelocity = m.changeInVelocity
      ∨ (d._changeInVelocity = 128
        ∧ m.changeInVelocity = (dynEntry m.dynamicType).changeInVelocity)) :
    d.changeInVelocity = m.changeInVelocity := by
  have hlt : m.changeInVelocity < 128 := by
    unfold Dynamic.changeInVelocity
    split
    · exact dynEntry_changeInVelocity_lt _
    · omega
  rcases hv with hv | ⟨hv, hm⟩
  · have hnot : ¬ d._changeInVelocity ≥ 128 := by omega
    have hd : d.changeInVelocity = d._changeInVelocity := by
      rw [Dynamic.changeInVelocity, if_neg hnot]
    rw [hd, hv]
  · rw [hm]
    simp [Dynamic.changeInVelocity, hv, Dynamic.dynamicType, hk]

/-- The own fields after reading back the element written for the kind. -/
theorem read_kind_fields (cv : TConv) (omitDefaults : Bool)
    (baseGet baseDefault : Pid → PropertyValue) (m d d' : Dynamic)
    (hinj : Function.Injective cv.dynamicTypeToXml)
    (htext : ∀ (K : DynamicType) (e : Dyn), e ∈ dynList → e.text ≠ cv.dynamicTypeToXml K)
    (hdef : baseDefault .DYNAMIC_TYPE = .invalid)
    (h : d' = d.read cv (m.writeProperty cv omitDefaults baseGet baseDefault .DYNAMIC_TYPE)) :
    d'._dynamicType = m._dynamicType ∧ d'._velocity = d._velocity
    ∧ d'._dynRange = d._dynRange ∧ d'._changeInVelocity = d._changeInVelocity
    ∧ d'._velChangeSpeed = d._velChangeSpeed := by
  rw [read_writeProperty_dynamicType cv omitDefaults baseGet baseDefault hdef,
    setDynamicType_toXml cv.dynamicTypeToXml hinj htext] at h
  subst h
  exact ⟨rfl, rfl, rfl, rfl, rfl⟩

/-- The own fields after reading back what is written for the velocity. -/
theorem read_velocity_fields (cv : TConv) (omitDefaults : Bool)
    (baseGet baseDefault : Pid → PropertyValue) (m d d' : Dynamic)
    (h : d' = d.read cv (m.writeProperty cv omitDefaults baseGet baseDefault .VELOCITY)) :
    d'._dynamicType = d._dynamicType
    ∧ (d'._velocity = m.velocity ∨ (d'._velocity = d._velocity ∧ m.velocity = -1))
    ∧ d'._dynRange = d._dynRange ∧ d'._changeInVelocity = d._changeInVelocity
    ∧ d'._velChangeSpeed = d._velChangeSpeed := by
  rw [read_writeProperty_velocity] at h
  by_cases hc : omitDefaults = true ∧ m.velocity = -1
  · rw [if_pos hc] at h
    subst h
    exact ⟨rfl, Or.inr ⟨rfl, hc.2⟩, rfl, rfl, rfl⟩
  · rw [if_neg hc] at h
    subst h
    exact ⟨rfl, Or.inl rfl, rfl, rfl, rfl⟩

/-- The own fields after reading back what is written for the dynamic range. -/
theorem read_dynamicRange_fields (cv : TConv) (omitDefaults : Bool)
    (baseGet baseDefault : Pid → PropertyValue) (m d d' : Dynamic)
    (hrange : ∀ (r def_ : DynamicRange),
      cv.dynamicRangeFromXml (cv.dynamicRangeToXml r) def_ = r)
    (h : d' = d.read cv (m.writeProperty cv omitDefaults baseGet baseDefault .DYNAMIC_RANGE)) :
    d'._dynamicType = d._dynamicType ∧ d'._velocity = d._velocity
    ∧ (d'._dynRange = m._dynRange ∨ (d'._dynRange = d._dynRange ∧ m._dynRange = .PART))
    ∧ d'._changeInVelocity = d._changeInVelocity
    ∧ d'._velChangeSpeed = d._velChangeSpeed := by
  rw [read_writeProperty_dynamicRange, hrange] at h
  by_cases hc : omitDefaults = true ∧ m._dynRange = .PART
  · rw [if_pos hc] at h
    subst h
    exact ⟨rfl, rfl, Or.inr ⟨rfl, hc.2⟩, rfl, rfl⟩
  · rw [if_neg hc] at h
    subst h
    exact ⟨rfl, rfl, Or.inl rfl, rfl, rfl⟩

/-- The own fields after reading back what is written for the velocity
change. -/
theorem read_veloChange_fields (cv : TConv) (omitDefaults : Bool)
    (baseGet baseDefault : Pid → PropertyValue) (m d d' : Dynamic)
    (ha : m.isVelocityChangeAvailable = true)
    (h : d' = d.read cv (m.writeProperty cv omitDefaults baseGet baseDefault .VELO_CHANGE)) :
    d'._dynamicType = d._dynamicType ∧ d'._velocity = d._velocity
    ∧ d'._dynRange = d._dynRange
    ∧ (d'._changeInVelocity = m.changeInVelocity
      ∨ (d'._changeInVelocity = d._changeInVelocity
        ∧ m.changeInVelocity = (dynEntry m.dynamicType).changeInVelocity))
    ∧ d'._velChangeSpeed = d._velChangeSpeed := by
  rw [read_writeProperty_veloChange _ _ _ _ _ _ ha] at h
  by_cases hc : omitDefaults = true
      ∧ m.changeInVelocity = (dynEntry m.dynamicType).changeInVelocity
  · rw [if_pos hc] at h
    subst h
    exact ⟨rfl, rfl, rfl, Or.inr ⟨rfl, hc.2⟩, rfl⟩
  · rw [if_neg hc] at h
    subst h
    exact ⟨rfl, rfl, rfl, Or.inl rfl, rfl⟩

/-- The own fields after reading back what is written for the speed. -/
theorem read_veloChangeSpeed_fields (cv : TConv) (omitDefaults : Bool)
    (baseGet baseDefault : Pid → PropertyValue) (m d d' : Dynamic)
    (hspeed : ∀ (v def_ : DynamicSpeed),
      cv.dynamicSpeedFromXml (cv.dynamicSpeedToXml v) def_ = v)
    (h : d' = d.read cv
      (m.writeProperty cv omitDefaults baseGet baseDefault .VELO_CHANGE_SPEED)) :
    d'._dynamicType = d._dynamicType ∧ d'._velocity = d._velocity
    ∧ d'._dynRange = d._dynRange ∧ d'._changeInVelocity = d._changeInVelocity
    ∧ (d'._velChangeSpeed = m._velChangeSpeed
      ∨ (d'._velChangeSpeed = d._velChangeSpeed ∧ m._velChangeSpeed = .NORMAL)) := by
  rw [read_writeProperty_veloChangeSpeed, hspeed] at h
  by_cases hc : omitDefaults = true ∧ m._velChangeSpeed = .NORMAL
  · rw [if_pos hc] at h
    subst h
    exact ⟨rfl, rfl, rfl, rfl, Or.inr ⟨rfl, hc.2⟩⟩
  · rw [if_neg hc] at h
    subst h
    exact ⟨rfl, rfl, rfl, rfl, Or.inl rfl⟩

/-- The fields after reading back the inherited text properties: the own
fields are kept, and the display text is restored when it was written. -/
theorem read_textBase_fields (cv : TConv) (m d d' : Dynamic) (writeText : Bool)
    (h : d' = d.read cv (m.textBaseWriteProperties writeText)) :
    d'._dynamicType = d._dynamicType ∧ d'._velocity = d._velocity
    ∧ d'._dynRange = d._dynRange ∧ d'._changeInVelocity = d._changeInVelocity
    ∧ d'._velChangeSpeed = d._velChangeSpeed
    ∧ (writeText = true → d'.xmlText = m.xmlText) := by
  rw [read_textBaseWriteProperties] at h
  cases writeText with
  | true =>
    rw [if_pos rfl] at h
    subst h
    exact ⟨rfl, rfl, rfl, rfl, rfl, fun _ => rfl⟩
  | false =>
    rw [if_neg (by simp)] at h
    subst h
    exact ⟨rfl, rfl, rfl, rfl, rfl, fun hf => absurd hf (by simp)⟩

/-- C3: round trip of the codec. Reading, into a freshly constructed marking,
the tag stream that `write` emits for a marking `m` gives a marking with the
kind of `m`, the `velocity()` of `m`, the dynamic range of `m` and, when
`isVelocityChangeAvailable()` holds for `m`, the `changeInVelocity()` and the
speed of `m`; when the kind of `m` is `OTHER`, the display text is that of `m`.
This holds whether or not the writer leaves out values equal to their default.
Assumed of the external conversions: the short tags of the kinds are pairwise
distinct and none is the glyph text of a row, the tokens of the range and of
the speed are decoded to the values they encode, and the inherited default of
the kind property is the invalid value. -/
theorem write_read_roundtrip (cv : TConv) (omitDefaults : Bool)
    (baseGet baseDefault : Pid → PropertyValue) (m : Dynamic) (hasSegment : Bool)
    (hinj : Function.Injective cv.dynamicTypeToXml)
    (htext : ∀ (K : DynamicType) (e : Dyn), e ∈ dynList → e.text ≠ cv.dynamicTypeToXml K)
    (hrange : ∀ (r def_ : DynamicRange),
      cv.dynamicRangeFromXml (cv.dynamicRangeToXml r) def_ = r)
    (hspeed : ∀ (v def_ : DynamicSpeed),
      cv.dynamicSpeedFromXml (cv.dynamicSpeedToXml v) def_ = v)
    (hdef : baseDefault .DYNAMIC_TYPE = .invalid) :
    ((Dynamic.new hasSegment).read cv
        (m.write cv omitDefaults true baseGet baseDefault)).dynamicType = m.dynamicType
    ∧ ((Dynamic.new hasSegment).read cv
        (m.write cv omitDefaults true baseGet baseDefault)).velocity = m.velocity
    ∧ ((Dynamic.new hasSegment).read cv
        (m.write cv omitDefaults true baseGet baseDefault))._dynRange = m._dynRange
    ∧ (m.isVelocityChangeAvailable = true →
        ((Dynamic.new hasSegment).read cv
          (m.write cv omitDefaults true baseGet baseDefault)).changeInVelocity
            = m.changeInVelocity
        ∧ ((Dynamic.new hasSegment).read cv
          (m.write cv omitDefaults true baseGet baseDefault))._velChangeSpeed
            = m._velChangeSpeed)
    ∧ (m.dynamicType = .OTHER →
        ((Dynamic.new hasSegment).read cv
          (m.write cv omitDefaults true baseGet baseDefault)).xmlText = m.xmlText) := by
  -- the intermediate states of the reader, one per group of elements written
  obtain ⟨d1, h1⟩ : ∃ d1, d1 = (Dynamic.new hasSegment).read cv
      (m.writeProperty cv omitDefaults baseGet baseDefault .DYNAMIC_TYPE) := ⟨_, rfl⟩
  obtain ⟨d2, h2⟩ : ∃ d2, d2 = d1.read cv
      (m.writeProperty cv omitDefaults baseGet baseDefault .VELOCITY) := ⟨_, rfl⟩
  obtain ⟨d3, h3⟩ : ∃ d3, d3 = d2.read cv
      (m.writeProperty cv omitDefaults baseGet baseDefault .DYNAMIC_RANGE) := ⟨_, rfl⟩
  obtain ⟨d4, h4⟩ : ∃ d4, d4 = d3.read cv
      (if m.isVelocityChangeAvailable = true then
        m.writeProperty cv omitDefaults baseGet baseDefault .VELO_CHANGE
        ++ m.writeProperty cv omitDefaults baseGet baseDefault .VELO_CHANGE_SPEED
      else []) := ⟨_, rfl⟩
  obtain ⟨d5, h5⟩ : ∃ d5, d5 = d4.read cv
      (m.textBaseWriteProperties (m.dynamicType == .OTHER)) := ⟨_, rfl⟩
  have hall : (Dynamic.new hasSegment).read cv
      (m.write cv omitDefaults true baseGet baseDefault) = d5 := by
    simp only [Dynamic.write, Bool.not_true, Bool.false_eq_true, if_false, read_append]
    rw [← h1, ← h2, ← h3, ← h4, ← h5]
  rw [hall]
  have new_velocity : (Dynamic.new hasSegment)._velocity = -1 := rfl
  have new_range : (Dynamic.new hasSegment)._dynRange = .PART := rfl
  have new_change : (Dynamic.new hasSegment)._changeInVelocity = 128 := rfl
  have new_speed : (Dynamic.new hasSegment)._velChangeSpeed = .NORMAL := rfl
  obtain ⟨k1, v1, r1, c1, s1⟩ :=
    read_kind_fields cv omitDefaults baseGet baseDefault m _ d1 hinj htext hdef h1
  obtain ⟨k2, v2, r2, c2, s2⟩ :=
    read_velocity_fields cv omitDefaults baseGet baseDefault m d1 d2 h2
  obtain ⟨k3, v3, r3, c3, s3⟩ :=
    read_dynamicRange_fields cv omitDefaults baseGet baseDefault m d2 d3 hrange h3
  obtain ⟨k5, v5, r5, c5, s5, t5⟩ := read_textBase_fields cv m d4 d5 _ h5
  -- the kind, the stored velocity and the range do not depend on the optional group
  have k4 : d4._dynamicType = d3._dynamicType ∧ d4._velocity = d3._velocity
      ∧ d4._dynRange = d3._dynRange := by
    by_cases ha : m.isVelocityChangeAvailable = true
    · rw [if_pos ha, read_append] at h4
      obtain ⟨d4a, h4a⟩ : ∃ d4a, d4a = d3.read cv
        (m.writeProperty cv omitDefaults baseGet baseDefault .VELO_CHANGE) := ⟨_, rfl⟩
      rw [← h4a] at h4
      obtain ⟨ka, va, ra, _, _⟩ :=
        read_veloChange_fields cv omitDefaults baseGet baseDefault m d3 d4a ha h4a
      obtain ⟨kb, vb, rb, _, _⟩ :=
        read_veloChangeSpeed_fields cv omitDefaults baseGet baseDefault m d4a d4 hspeed h4
      exact ⟨kb.trans ka, vb.trans va, rb.trans ra⟩
    · rw [if_neg ha] at h4
      subst h4
      exact ⟨rfl, rfl, rfl⟩
  have hK : d5._dynamicType = m._dynamicType := by
    rw [k5, k4.1, k3, k2, k1]
  have hV : d5._velocity = m.velocity := by
    rw [v5, k4.2.1, v3]
    rcases v2 with h | ⟨h, hm⟩
    · exact h
    · rw [h, v1, new_velocity, hm]
  have hR : d5._dynRange = m._dynRange := by
    rw [r5, k4.2.2]
    rcases r3 with h | ⟨h, hm⟩
    · exact h
    · rw [h, r2, r1, new_range, hm]
  refine ⟨hK, velocity_reproduced m _ hK hV, hR, fun ha => ?_, fun ho => ?_⟩
  · rw [if_pos ha, read_append] at h4
    obtain ⟨d4a, h4a⟩ : ∃ d4a, d4a = d3.read cv
      (m.writeProperty cv omitDefaults baseGet baseDefault .VELO_CHANGE) := ⟨_, rfl⟩
    rw [← h4a] at h4
    obtain ⟨_, _, _, ca, sa⟩ :=
      read_veloChange_fields cv omitDefaults baseGet baseDefault m d3 d4a ha h4a
    obtain ⟨_, _, _, cb, sb⟩ :=
      read_veloChangeSpeed_fields cv omitDefaults baseGet baseDefault m d4a d4 hspeed h4
    constructor
    · apply changeInVelocity_reproduced m _ hK
      rw [c5, cb]
      rcases ca with h | ⟨h, hm⟩
      · exact Or.inl h
      · exact Or.inr ⟨by rw [h, c3, c2, c1, new_change], hm⟩
    · rw [s5]
      rcases sb with h | ⟨h, hm⟩
      · exact h
      · rw [h, sa, s3, s2, s1, new_speed, hm]
  · exact t5 (by simp [ho])

/-- Every kind is in the list of all kinds. -/
theorem DynamicType.mem_all (K : DynamicType) : K ∈ DynamicType.all := by
  cases K <;> decide

/-- The short tags of the kinds are pairwise distinct. -/
theorem dynamicTypeToXml_injective : Function.Injective dynamicTypeToXml := by
  have h : ∀ a ∈ DynamicType.all, ∀ b ∈ DynamicType.all,
      dynamicTypeToXml a = dynamicTypeToXml b → a = b := by decide
  intro a b hab
  exact h a (DynamicType.mem_all a) b (DynamicType.mem_all b) hab

/-- No short tag of a kind is the glyph text of a row. -/
theorem dynamicTypeToXml_ne_text (K : DynamicType) (e : Dyn) (he : e ∈ dynList) :
    e.text ≠ dynamicTypeToXml K := by
  have h : ∀ e ∈ dynList, ∀ K ∈ DynamicType.all, e.text ≠ dynamicTypeToXml K := by decide
  exact h e he K (DynamicType.mem_all K)

/-- The tokens of the dynamic range are decoded to the values they encode. -/
theorem tconv_dynamicRange (r def_ : DynamicRange) :
    tconv.dynamicRangeFromXml (tconv.dynamicRangeToXml r) def_ = r := by
  cases r <;> rfl

/-- The tokens of the speed are decoded to the values they encode. -/
theorem tconv_dynamicSpeed (v def_ : DynamicSpeed) :
    tconv.dynamicSpeedFromXml (tconv.dynamicSpeedToXml v) def_ = v := by
  cases v <;> rfl

/-- Instance of C3: the marking `sampleSfz` (kind `SFZ`, velocity 90, range
`SYSTEM`, change -30, speed `FAST`) written by a writer that leaves out
defaults, and the free-text marking `samplePocoF` written by a writer that
emits everything, each read back with the tokens of `tconv`. -/
theorem write_read_roundtrip_witness :
    (((Dynamic.new true).read tconv
        (Dynamic.sampleSfz.write tconv true true (fun _ => .invalid)
          (fun _ => .invalid))).dynamicType = .SFZ
      ∧ ((Dynamic.new true).read tconv
        (Dynamic.sampleSfz.write tconv true true (fun _ => .invalid)
          (fun _ => .invalid))).velocity = 90
      ∧ ((Dynamic.new true).read tconv
        (Dynamic.sampleSfz.write tconv true true (fun _ => .invalid)
          (fun _ => .invalid)))._dynRange = .SYSTEM
      ∧ ((Dynamic.new true).read tconv
        (Dynamic.sampleSfz.write tconv true true (fun _ => .invalid)
          (fun _ => .invalid))).changeInVelocity = -30
      ∧ ((Dynamic.new true).read tconv
        (Dynamic.sampleSfz.write tconv true true (fun _ => .invalid)
          (fun _ => .invalid)))._velChangeSpeed = .FAST)
    ∧ (((Dynamic.new true).read tconv
        (Dynamic.samplePocoF.write tconv false true (fun _ => .invalid)
          (fun _ => .invalid))).dynamicType = .OTHER
      ∧ ((Dynamic.new true).read tconv
        (Dynamic.samplePocoF.write tconv false true (fun _ => .invalid)
          (fun _ => .invalid))).velocity = -1
      ∧ ((Dynamic.new true).read tconv
        (Dynamic.samplePocoF.write tconv false true (fun _ => .invalid)
          (fun _ => .invalid))).xmlText = "poco f") :=
  have h := write_read_roundtrip tconv true (fun _ => .invalid) (fun _ => .invalid)
    Dynamic.sampleSfz true dynamicTypeToXml_injective dynamicTypeToXml_ne_text
    tconv_dynamicRange tconv_dynamicSpeed rfl
  have g := write_read_roundtrip tconv false (fun _ => .invalid) (fun _ => .invalid)
    Dynamic.samplePocoF true dynamicTypeToXml_injective dynamicTypeToXml_ne_text
    tconv_dynamicRange tconv_dynamicSpeed rfl
  ⟨⟨h.1, h.2.1, h.2.2.1, (h.2.2.2.1 rfl).1, (h.2.2.2.1 rfl).2⟩,
   ⟨g.1, g.2.1, g.2.2.2.2 rfl⟩⟩

/-! ## Property dispatch: results on setting -/

/-- C11: `setProperty(VELO_CHANGE, v)`. When `isVelocityChangeAvailable()` is
false, the call changes nothing but the request for a re-layout: kind, stored
velocity, range, stored override, speed and text are as before, and
`getProperty(VELO_CHANGE)` is still the invalid value. When
`isVelocityChangeAvailable()` is true, the marking afterwards is the one that
`setChangeInVelocity(v.toInt())` gives, with the re-layout requested. -/
theorem setProperty_veloChange (conv : PropertyConv)
    (baseSet : Pid → PropertyValue → TextBasePart → Bool × TextBasePart)
    (d : Dynamic) (v : PropertyValue) :
    (d.isVelocityChangeAvailable = false →
      (d.setProperty conv baseSet .VELO_CHANGE v).2 = d.triggerLayout
      ∧ (d.setProperty conv baseSet .VELO_CHANGE v).2._dynamicType = d._dynamicType
      ∧ (d.setProperty conv baseSet .VELO_CHANGE v).2._velocity = d._velocity
      ∧ (d.setProperty conv baseSet .VELO_CHANGE v).2._dynRange = d._dynRange
      ∧ (d.setProperty conv baseSet .VELO_CHANGE v).2._changeInVelocity = d._changeInVelocity
      ∧ (d.setProperty conv baseSet .VELO_CHANGE v).2._velChangeSpeed = d._velChangeSpeed
      ∧ (d.setProperty conv baseSet .VELO_CHANGE v).2.xmlText = d.xmlText
      ∧ (∀ baseGet : Pid → PropertyValue,
          (d.setProperty conv baseSet .VELO_CHANGE v).2.getProperty baseGet .VELO_CHANGE
            = .invalid))
    ∧ (d.isVelocityChangeAvailable = true →
      (d.setProperty conv baseSet .VELO_CHANGE v).2
        = (d.setChangeInVelocity (conv.toInt v)).triggerLayout
      ∧ (d.setProperty conv baseSet .VELO_CHANGE v).2._changeInVelocity
        = (d.setChangeInVelocity (conv.toInt v))._changeInVelocity
      ∧ (d.setProperty conv baseSet .VELO_CHANGE v).2.changeInVelocity
        = (d.setChangeInVelocity (conv.toInt v)).changeInVelocity)
    ∧ (d.setProperty conv baseSet .VELO_CHANGE v).1 = true := by
  refine ⟨fun ha => ?_, fun ha => ?_, rfl⟩
  · have h : (d.setProperty conv baseSet .VELO_CHANGE v).2 = d.triggerLayout := by
      simp [Dynamic.setProperty, ha]
    rw [h]
    refine ⟨rfl, rfl, rfl, rfl, rfl, rfl, rfl, fun baseGet => ?_⟩
    have ha' : d.triggerLayout.isVelocityChangeAvailable = false := ha
    simp [Dynamic.getProperty, ha']
  · have h : (d.setProperty conv baseSet .VELO_CHANGE v).2
        = (d.setChangeInVelocity (conv.toInt v)).triggerLayout := by
      simp [Dynamic.setProperty, ha]
    rw [h]
    exact ⟨rfl, rfl, rfl⟩

/-- Instance of C11: on a marking of kind `MF` (change not available) the
value 5 is not stored; on a marking of kind `SFZ` the value 5 is stored. -/
theorem setProperty_veloChange_witness :
    ((Dynamic.sample .MF (-1) 128).setProperty PropertyConv.payload
        (fun _ _ tb => (false, tb)) .VELO_CHANGE (.int 5)).2._changeInVelocity = 128
    ∧ ((Dynamic.sample .SFZ (-1) 128).setProperty PropertyConv.payload
        (fun _ _ tb => (false, tb)) .VELO_CHANGE (.int 5)).2.changeInVelocity = 5 :=
  ⟨((setProperty_veloChange PropertyConv.payload (fun _ _ tb => (false, tb))
      (Dynamic.sample .MF (-1) 128) (.int 5)).1 (by decide)).2.2.2.2.1,
   ((setProperty_veloChange PropertyConv.payload (fun _ _ tb => (false, tb))
      (Dynamic.sample .SFZ (-1) 128) (.int 5)).2.1 (by decide)).2.2⟩

/-- C13: with a stored velocity that is absent (`<= 0`) or within 1..127,
`velocity()` is the sentinel -1 when the kind is `OTHER` and the velocity is
absent, and lies in 0..127 in every other case. -/
theorem velocity_range (d : Dynamic)
    (h : d._velocity ≤ 0 ∨ (1 ≤ d._velocity ∧ d._velocity ≤ 127)) :
    ((d.dynamicType = .OTHER ∧ d._velocity ≤ 0) → d.velocity = -1)
    ∧ (¬ (d.dynamicType = .OTHER ∧ d._velocity ≤ 0) →
        0 ≤ d.velocity ∧ d.velocity ≤ 127) := by
  refine ⟨fun ⟨hk, hv⟩ => ?_, fun hn => ?_⟩
  · rw [Dynamic.velocity, if_pos hv, hk]; rfl
  · by_cases hv : d._velocity ≤ 0
    · have hk : d.dynamicType ≠ .OTHER := fun hk => hn ⟨hk, hv⟩
      rw [Dynamic.velocity, if_pos hv]
      revert hk
      generalize d.dynamicType = K
      cases K <;> decide
    · rw [Dynamic.velocity, if_neg hv]
      rcases h with h | h
      · exact absurd h hv
      · omega

/-- Instance of C13: `OTHER` without a stored velocity gives -1, and `PPPPPP`
without a stored velocity gives a value in 0..127. -/
theorem velocity_range_witness :
    (Dynamic.sample .OTHER 0 128).velocity = -1
    ∧ (0 ≤ (Dynamic.sample .PPPPPP (-3) 128).velocity
      ∧ (Dynamic.sample .PPPPPP (-3) 128).velocity ≤ 127) :=
  ⟨(velocity_range (Dynamic.sample .OTHER 0 128) (Or.inl (by decide))).1 ⟨rfl, by decide⟩,
   (velocity_range (Dynamic.sample .PPPPPP (-3) 128) (Or.inl (by decide))).2 (by decide)⟩

/-- C14: the table has 31 rows, one for each kind and in the order of the
kinds; the row at index `i` records the kind `DynamicType(i)`; indexing the
table by `int(K)` is within bounds for every kind `K` and gives the one row
whose type is `K`. -/
theorem dynList_indexed :
    dynList.length = 31
    ∧ dynList.map (fun e => e.type) = DynamicType.all
    ∧ (∀ K : DynamicType, K ∈ DynamicType.all)
    ∧ (∀ K : DynamicType,
        K.toNat < dynList.length
        ∧ dynList[K.toNat]? = some (dynEntry K)
        ∧ dynList[K.toNat]? ≠ none
        ∧ (dynEntry K).type = K
        ∧ (dynList.filter (fun e => e.type = K)).length = 1)
    ∧ (∀ (i : Nat) (e : Dyn), dynList[i]? = some e →
        e.type = DynamicType.ofIndex i ∧ e.type.toNat = i) := by
  refine ⟨rfl, by decide, fun K => by cases K <;> decide, fun K => ?_, fun i e h => ?_⟩
  · cases K <;> decide
  · have hi : i < 31 := by
      have := (List.getElem?_eq_some.mp h).1
      simpa [dynList] using this
    interval_cases i <;> simp [dynList] at h <;> subst h <;> exact ⟨rfl, rfl⟩

/-- C17: set and get of the velocity change. For `v < 128`,
`changeInVelocity()` after `setChangeInVelocity(v)` is `v`; for `v >= 128` the
value is stored, is read as the sentinel, and `changeInVelocity()` is the
catalog delta of the kind. -/
theorem setChangeInVelocity_get (d : Dynamic) (v : Int) :
    (v < 128 → (d.setChangeInVelocity v).changeInVelocity = v)
    ∧ (128 ≤ v →
        (d.setChangeInVelocity v)._changeInVelocity = v
        ∧ (d.setChangeInVelocity v).changeInVelocity
            = (dynEntry d.dynamicType).changeInVelocity) := by
  have hlt : (dynEntry d.dynamicType).changeInVelocity < 128 := by
    generalize d.dynamicType = K
    cases K <;> decide
  refine ⟨fun hv => ?_, fun hv => ?_⟩
  · by_cases heq : (dynEntry d.dynamicType).changeInVelocity = v
    · have hs : d.setChangeInVelocity v = { d with _changeInVelocity := 128 } := by
        rw [Dynamic.setChangeInVelocity, if_pos heq]
      rw [hs, Dynamic.changeInVelocity, if_pos (le_refl (128 : Int))]
      exact heq
    · have hs : d.setChangeInVelocity v = { d with _changeInVelocity := v } := by
        rw [Dynamic.setChangeInVelocity, if_neg heq]
      rw [hs, Dynamic.changeInVelocity, if_neg (by simpa using hv)]
  · have hne : ¬ (dynEntry d.dynamicType).changeInVelocity = v := by omega
    have hs : d.setChangeInVelocity v = { d with _changeInVelocity := v } := by
      rw [Dynamic.setChangeInVelocity, if_neg hne]
    rw [hs]
    refine ⟨rfl, ?_⟩
    rw [Dynamic.changeInVelocity, if_pos (by simpa using hv)]
    rfl

/-- Instance of C17: on a marking of kind `SFZ`, -30 is read back as -30, the
catalog delta -18 is read back as -18, and 200 is read back as -18. -/
theorem setChangeInVelocity_get_witness :
    ((Dynamic.sample .SFZ (-1) 128).setChangeInVelocity (-30)).changeInVelocity = -30
    ∧ ((Dynamic.sample .SFZ (-1) 128).setChangeInVelocity (-18)).changeInVelocity = -18
    ∧ ((Dynamic.sample .SFZ (-1) 128).setChangeInVelocity 200).changeInVelocity = -18 :=
  ⟨(setChangeInVelocity_get (Dynamic.sample .SFZ (-1) 128) (-30)).1 (by decide),
   (setChangeInVelocity_get (Dynamic.sample .SFZ (-1) 128) (-18)).1 (by decide),
   ((setChangeInVelocity_get (Dynamic.sample .SFZ (-1) 128) 200).2 (by decide)).2⟩

/-- C20: for every kind other than `OTHER`, the base velocity lies in 1..127
and the velocity reached after the kind's own change, base velocity plus
delta, lies in 0..127. -/
theorem dynList_velocity_in_range (K : DynamicType) (h : K ≠ .OTHER) :
    (1 ≤ (dynEntry K).velocity ∧ (dynEntry K).velocity ≤ 127)
    ∧ (0 ≤ (dynEntry K).velocity + (dynEntry K).changeInVelocity
      ∧ (dynEntry K).velocity + (dynEntry K).changeInVelocity ≤ 127) := by
  revert h
  cases K <;> decide

/-- Instance of C20: `SFPP`, with the base velocity 112 and the delta -79. -/
theorem dynList_velocity_in_range_witness :
    (1 ≤ (dynEntry .SFPP).velocity ∧ (dynEntry .SFPP).velocity ≤ 127)
    ∧ (0 ≤ (dynEntry .SFPP).velocity + (dynEntry .SFPP).changeInVelocity
      ∧ (dynEntry .SFPP).velocity + (dynEntry .SFPP).changeInVelocity ≤ 127) :=
  dynList_velocity_in_range .SFPP (by decide)

/-! ## Kind and text: results -/

/-- The glyph texts of different kinds are different. -/
theorem dynamicText_injective : Function.Injective dynamicText := by
  have h : ∀ a ∈ DynamicType.all, ∀ b ∈ DynamicType.all,
      dynamicText a = dynamicText b → a = b := by decide
  intro a b hab
  exact h a (DynamicType.mem_all a) b (DynamicType.mem_all b) hab

/-- A row of the table is the row of the kind of its index. -/
theorem dynList_getElem?_eq (i : Nat) (e : Dyn) (h : dynList[i]? = some e) :
    i < 31 ∧ e = dynEntry (DynamicType.ofIndex i) := by
  have hi : i < 31 := by
    have := (List.getElem?_eq_some.mp h).1
    simpa [dynList] using this
  have h2 := dynList_getElem?_toNat (DynamicType.ofIndex i)
  rw [toNat_ofIndex i hi, h] at h2
  exact ⟨hi, Option.some.inj h2⟩

/-- Kind resolution of the glyph text of a row gives the kind of that row and
the same text, provided no short tag is the glyph text of a row. -/
theorem setDynamicType_text (toXml : DynamicType → String)
    (htext : ∀ (K : DynamicType) (e : Dyn), e ∈ dynList → e.text ≠ toXml K)
    (d : Dynamic) (i : Nat) (e : Dyn) (he : dynList[i]? = some e) :
    d.setDynamicType toXml e.text
      = (d.setDynamicTypeEnum (DynamicType.ofIndex i)).setXmlText e.text := by
  obtain ⟨hi, hei⟩ := dynList_getElem?_eq i e he
  have hl : setDynamicTypeLoop toXml e.text dynList 0 = some (i, e) := by
    apply setDynamicTypeLoop_first toXml e.text i e he (Or.inr rfl)
    intro j e' hj he' hm
    obtain ⟨hj31, hej⟩ := dynList_getElem?_eq j e' he'
    rcases hm with h | h
    · exact htext _ e (List.getElem?_mem he) h.symm
    · rw [hej, hei] at h
      have hjk := dynamicText_injective h
      have h3 : j = i := by
        rw [← toNat_ofIndex j hj31, ← toNat_ofIndex i hi, hjk]
      omega
  simp [Dynamic.setDynamicType, hl]

/-- Setting the kind and the text to what they are leaves the marking as it
is. -/
theorem setDynamicTypeEnum_setXmlText_self (d : Dynamic) (K : DynamicType) (t : String) :
    (((d.setDynamicTypeEnum K).setXmlText t).setDynamicTypeEnum K).setXmlText t
      = (d.setDynamicTypeEnum K).setXmlText t := rfl

/-- C18: the glyph texts of the kinds are pairwise distinct, so, provided no
short tag is the glyph text of a row, `setDynamicType(dynamicText(K))` gives
the kind `K` and the text `dynamicText(K)` for every kind `K`, and
`setDynamicType` applied to the display text it has just produced changes
neither the kind nor the text. -/
theorem setDynamicType_dynamicText (toXml : DynamicType → String)
    (htext : ∀ (K : DynamicType) (e : Dyn), e ∈ dynList → e.text ≠ toXml K)
    (d : Dynamic) :
    (∀ K K' : DynamicType, dynamicText K = dynamicText K' → K = K')
    ∧ (dynList.map (fun e => e.text)).Nodup
    ∧ (∀ K : DynamicType,
        (d.setDynamicType toXml (dynamicText K)).dynamicType = K
        ∧ (d.setDynamicType toXml (dynamicText K)).xmlText = dynamicText K)
    ∧ (∀ tag : String,
        (d.setDynamicType toXml tag).setDynamicType toXml (d.setDynamicType toXml tag).xmlText
          = d.setDynamicType toXml tag) := by
  refine ⟨fun K K' h => dynamicText_injective h, by decide, fun K => ?_, fun tag => ?_⟩
  · have h := setDynamicType_text toXml htext d K.toNat (dynEntry K)
      (dynList_getElem?_toNat K)
    rw [ofIndex_toNat] at h
    unfold dynamicText
    rw [h]
    exact ⟨rfl, rfl⟩
  · cases hl : setDynamicTypeLoop toXml tag dynList 0 with
    | none =>
      have h1 : d.setDynamicType toXml tag = (d.setDynamicTypeEnum .OTHER).setXmlText tag := by
        simp [Dynamic.setDynamicType, hl]
      rw [h1]
      have h2 : ((d.setDynamicTypeEnum .OTHER).setXmlText tag).xmlText = tag := rfl
      rw [h2]
      simp only [Dynamic.setDynamicType, hl]
      rfl
    | some p =>
      obtain ⟨i, e⟩ := p
      obtain ⟨_, hget, _, _⟩ := setDynamicTypeLoop_some toXml tag dynList 0 i e hl
      rw [Nat.sub_zero] at hget
      have h1 : d.setDynamicType toXml tag
          = (d.setDynamicTypeEnum (DynamicType.ofIndex i)).setXmlText e.text := by
        simp [Dynamic.setDynamicType, hl]
      rw [h1]
      have h2 : ((d.setDynamicTypeEnum (DynamicType.ofIndex i)).setXmlText e.text).xmlText
          = e.text := rfl
      rw [h2, setDynamicType_text toXml htext _ i e hget]
      rfl

/-- Instance of C18, with the short tags of the kinds: the glyph text of
`SFZ` is resolved to `SFZ`, and resolving the text produced for the tag `mf`
again changes nothing. -/
theorem setDynamicType_dynamicText_witness :
    ((Dynamic.new true).setDynamicType dynamicTypeToXml (dynamicText .SFZ)).dynamicType = .SFZ
    ∧ ((Dynamic.new true).setDynamicType dynamicTypeToXml "mf").setDynamicType dynamicTypeToXml
        ((Dynamic.new true).setDynamicType dynamicTypeToXml "mf").xmlText
        = (Dynamic.new true).setDynamicType dynamicTypeToXml "mf" :=
  ⟨((setDynamicType_dynamicText dynamicTypeToXml dynamicTypeToXml_ne_text
      (Dynamic.new true)).2.2.1 .SFZ).1,
   (setDynamicType_dynamicText dynamicTypeToXml dynamicTypeToXml_ne_text
      (Dynamic.new true)).2.2.2 "mf"⟩

/-- C19: kind and text stay consistent. After `setDynamicType(tag)`, and
after `endEdit`, the display text is the glyph text of the kind or the kind is
`OTHER`; `endEdit` changes the kind only when the edited text differs from the
glyph text of the current kind, and then to `OTHER`. -/
theorem kind_text_consistent (toXml : DynamicType → String)
    (baseEndEdit : TextBasePart → TextBasePart) (d : Dynamic) :
    (∀ tag : String,
      (d.setDynamicType toXml tag).xmlText
          = dynamicText (d.setDynamicType toXml tag).dynamicType
      ∨ (d.setDynamicType toXml tag).dynamicType = .OTHER)
    ∧ ((d.endEdit baseEndEdit).xmlText = dynamicText (d.endEdit baseEndEdit).dynamicType
      ∨ (d.endEdit baseEndEdit).dynamicType = .OTHER)
    ∧ (d.endEdit baseEndEdit).xmlText = (baseEndEdit d.textBase).xmlText
    ∧ ((d.endEdit baseEndEdit).dynamicType ≠ d.dynamicType →
        (baseEndEdit d.textBase).xmlText ≠ dynamicText d.dynamicType
        ∧ (d.endEdit baseEndEdit).dynamicType = .OTHER)
    ∧ ((baseEndEdit d.textBase).xmlText = dynamicText d.dynamicType →
        (d.endEdit baseEndEdit).dynamicType = d.dynamicType) := by
  have hend : (baseEndEdit d.textBase).xmlText = dynamicText d.dynamicType →
      d.endEdit baseEndEdit = d.setTextBase (baseEndEdit d.textBase) := by
    intro h
    have h' : ¬ (d.setTextBase (baseEndEdit d.textBase)).xmlText
        ≠ (dynEntry (d.setTextBase (baseEndEdit d.textBase))._dynamicType).text := by
      intro hne; exact hne h
    simp only [Dynamic.endEdit, if_neg h']
  have hend' : (baseEndEdit d.textBase).xmlText ≠ dynamicText d.dynamicType →
      d.endEdit baseEndEdit
        = { d.setTextBase (baseEndEdit d.textBase) with _dynamicType := .OTHER } := by
    intro h
    have h' : (d.setTextBase (baseEndEdit d.textBase)).xmlText
        ≠ (dynEntry (d.setTextBase (baseEndEdit d.textBase))._dynamicType).text := h
    simp only [Dynamic.endEdit, if_pos h']
  refine ⟨fun tag => ?_, ?_, ?_, fun hne => ?_, fun heq => ?_⟩
  · cases hl : setDynamicTypeLoop toXml tag dynList 0 with
    | none =>
      right
      simp [Dynamic.setDynamicType, hl, Dynamic.dynamicType, Dynamic.setDynamicTypeEnum,
        Dynamic.setXmlText]
    | some p =>
      obtain ⟨i, e⟩ := p
      obtain ⟨_, hget, _, _⟩ := setDynamicTypeLoop_some toXml tag dynList 0 i e hl
      rw [Nat.sub_zero] at hget
      obtain ⟨_, hei⟩ := dynList_getElem?_eq i e hget
      left
      have h1 : d.setDynamicType toXml tag
          = (d.setDynamicTypeEnum (DynamicType.ofIndex i)).setXmlText e.text := by
        simp [Dynamic.setDynamicType, hl]
      rw [h1, hei]
      rfl
  · by_cases h : (baseEndEdit d.textBase).xmlText = dynamicText d.dynamicType
    · left; rw [hend h]; exact h
    · right; rw [hend' h]; rfl
  · by_cases h : (baseEndEdit d.textBase).xmlText = dynamicText d.dynamicType
    · rw [hend h]; rfl
    · rw [hend' h]; rfl
  · by_cases h : (baseEndEdit d.textBase).xmlText = dynamicText d.dynamicType
    · rw [hend h] at hne; exact absurd rfl hne
    · exact ⟨h, by rw [hend' h]; rfl⟩
  · rw [hend heq]; rfl

/-- Instance of C19: a marking of kind `P` whose text is edited to `piano`
becomes `OTHER`; edited to the glyph text of `P` it stays `P`. -/
theorem kind_text_consistent_witness :
    ((Dynamic.sample .P (-1) 128).endEdit
        (fun tb => { tb with xmlText := "piano" })).dynamicType = .OTHER
    ∧ ((Dynamic.sample .P (-1) 128).endEdit
        (fun tb => { tb with xmlText := dynamicText .P })).dynamicType = .P :=
  ⟨((kind_text_consistent dynamicTypeToXml (fun tb => { tb with xmlText := "piano" })
      (Dynamic.sample .P (-1) 128)).2.2.2.1 (by decide)).2,
   (kind_text_consistent dynamicTypeToXml (fun tb => { tb with xmlText := dynamicText .P })
      (Dynamic.sample .P (-1) 128)).2.2.2.2 rfl⟩

/-! ## Horizontal layout: results -/

/-- The loop passes over voices without an element. -/
theorem layoutLoop_skip (env : LayoutEnv) (t : Nat) (d : Dynamic) :
    ∀ (n remaining voice : Nat),
      (∀ v, v < n → env.element (t + (voice + v)) = none) → n ≤ remaining →
      Dynamic.layoutLoop env t d remaining voice
        = Dynamic.layoutLoop env t d (remaining - n) (voice + n) := by
  intro n
  induction n with
  | zero => intro remaining voice _ _; rfl
  | succ n ih =>
    intro remaining voice hnone hle
    obtain ⟨r, rfl⟩ : ∃ r, remaining = r + 1 := ⟨remaining - 1, by omega⟩
    have h0 : env.element (t + voice) = none := by simpa using hnone 0 (by omega)
    rw [Dynamic.layoutLoop, h0]
    simp only
    rw [ih r (voice + 1) (fun v hv => by
      have := hnone (v + 1) (by omega)
      rwa [show voice + (v + 1) = voice + 1 + v by omega] at this) (by omega)]
    congr 1 <;> omega

/-- The loop stops at the first voice that has an element. -/
theorem layoutLoop_first (env : LayoutEnv) (t : Nat) (d : Dynamic) (voice : Nat)
    (e : SegmentElement) (hv : voice < VOICES)
    (he : env.element (t + voice) = some e)
    (hnone : ∀ v, v < voice → env.element (t + v) = none) :
    Dynamic.layoutLoop env t d VOICES 0 = d.layoutElement env e := by
  rw [layoutLoop_skip env t d voice VOICES 0 (fun v hv' => by simpa using hnone v hv')
    (by omega)]
  obtain ⟨r, hr⟩ : ∃ r, VOICES - voice = r + 1 := ⟨VOICES - voice - 1, by omega⟩
  rw [hr, Nat.zero_add, Dynamic.layoutLoop, he]

/-- The loop leaves the marking as it is when no voice has an element. -/
theorem layoutLoop_none (env : LayoutEnv) (t : Nat) (d : Dynamic)
    (hnone : ∀ v, v < VOICES → env.element (t + v) = none) :
    Dynamic.layoutLoop env t d VOICES 0 = d := by
  rw [layoutLoop_skip env t d VOICES VOICES 0 (fun v hv' => by simpa using hnone v hv')
    (le_refl _)]
  rw [Nat.sub_self, Dynamic.layoutLoop]

/-- C15 fails as stated: on track 5, with a rest of width 3 in voice 0
(track 4), a chord of width 5 in voice 1 and an alignment that is not
centered, the scan stops at the rest, which bears no note, and moves the
marking by half the width of the rest, 3/2; the first chord present would
have moved it by 5/2. -/
theorem layout_scan_counterexample :
    LayoutEnv.restThenChordLeft.element (clearLowTwoBits LayoutEnv.restThenChordLeft.track)
        = some ⟨false, 3⟩
    ∧ LayoutEnv.restThenChordLeft.element
        (clearLowTwoBits LayoutEnv.restThenChordLeft.track + 1) = some ⟨true, 5⟩
    ∧ ((Dynamic.sample .P (-1) 128).layout LayoutEnv.restThenChordLeft)._pos.x = 3 / 2
    ∧ ((Dynamic.sample .P (-1) 128).layoutElement LayoutEnv.restThenChordLeft
        ⟨true, 5⟩)._pos.x = 5 / 2 := by
  refine ⟨by decide, by decide, ?_, ?_⟩
  · have h : (Dynamic.sample .P (-1) 128).layout LayoutEnv.restThenChordLeft
        = (Dynamic.sample .P (-1) 128).rxposAdd (3 * (1 / 2)) := rfl
    rw [h]
    simp only [Dynamic.rxposAdd, Dynamic.sample, Dynamic.new]
    norm_num
  · have h : (Dynamic.sample .P (-1) 128).layoutElement LayoutEnv.restThenChordLeft ⟨true, 5⟩
        = (Dynamic.sample .P (-1) 128).rxposAdd (5 * (1 / 2)) := rfl
    rw [h]
    simp only [Dynamic.rxposAdd, Dynamic.sample, Dynamic.new]
    norm_num

/-- C15, amended: the scan of `Dynamic::layout`, for a marking with a segment.
The scan starts at the track of the marking with its two low bits cleared and
visits four voices in increasing order. The first element present, whether
it is a chord or not, determines the result; the elements of later voices and
of other tracks have no influence; when none of the four voices has an
element, the marking is as the inherited text layout left it. -/
theorem layout_scan (env : LayoutEnv) (d : Dynamic)
    (hseg : (env.textBaseLayout d.textBase).hasSegment = true) :
    (clearLowTwoBits env.track % 4 = 0
      ∧ clearLowTwoBits env.track / 4 = env.track / 4
      ∧ clearLowTwoBits env.track ≤ env.track
      ∧ env.track < clearLowTwoBits env.track + VOICES)
    ∧ (∀ (voice : Nat) (e : SegmentElement), voice < VOICES →
        env.element (clearLowTwoBits env.track + voice) = some e →
        (∀ v, v < voice → env.element (clearLowTwoBits env.track + v) = none) →
        d.layout env
          = (d.setTextBase (env.textBaseLayout d.textBase)).layoutElement env e
        ∧ (∀ element' : Nat → Option SegmentElement,
            (∀ v, v ≤ voice → element' (clearLowTwoBits env.track + v)
              = env.element (clearLowTwoBits env.track + v)) →
            d.layout { env with element := element' } = d.layout env))
    ∧ ((∀ voice, voice < VOICES →
          env.element (clearLowTwoBits env.track + voice) = none) →
        d.layout env = d.setTextBase (env.textBaseLayout d.textBase)
        ∧ (d.layout env)._pos.x = (env.textBaseLayout d.textBase)._pos.x) := by
  have hseg' : (d.setTextBase (env.textBaseLayout d.textBase)).hasSegment = true := hseg
  have hlay : ∀ env' : LayoutEnv, env'.textBaseLayout = env.textBaseLayout →
      d.layout env' = Dynamic.layoutLoop env' (clearLowTwoBits env'.track)
        (d.setTextBase (env.textBaseLayout d.textBase)) VOICES 0 := by
    intro env' h
    simp only [Dynamic.layout, h, hseg', if_true]
  refine ⟨?_, fun voice e hv he hnone => ?_, fun hnone => ?_⟩
  · unfold clearLowTwoBits VOICES
    omega
  · have h1 := layoutLoop_first env (clearLowTwoBits env.track)
      (d.setTextBase (env.textBaseLayout d.textBase)) voice e hv he hnone
    refine ⟨by rw [hlay env rfl, h1], fun element' hagree => ?_⟩
    rw [hlay env rfl, h1, hlay { env with element := element' } rfl]
    have h2 := layoutLoop_first { env with element := element' } (clearLowTwoBits env.track)
      (d.setTextBase (env.textBaseLayout d.textBase)) voice e hv
      (by rw [← he]; exact hagree voice (le_refl _))
      (fun v hv' => by rw [← hnone v hv']; exact hagree v (le_of_lt hv'))
    rw [h2]
    rfl
  · have h1 := layoutLoop_none env (clearLowTwoBits env.track)
      (d.setTextBase (env.textBaseLayout d.textBase)) hnone
    rw [hlay env rfl, h1]
    exact ⟨rfl, rfl⟩

/-- Instance of the amended C15: in the situation `restThenChord` the marking
on track 5 is placed by the element in voice 0 (track 4), its position moving
by half the width 3 of that element. -/
theorem layout_scan_witness :
    (Dynamic.sample .P (-1) 128).layout LayoutEnv.restThenChord
      = (Dynamic.sample .P (-1) 128).rxposAdd (3 * (1 / 2)) := by
  have h := ((layout_scan LayoutEnv.restThenChord (Dynamic.sample .P (-1) 128) rfl).2.1
    0 ⟨false, 3⟩ (by decide) rfl (fun v hv => absurd hv (Nat.not_lt_zero v))).1
  rw [h]
  rfl

/-- C21: the base velocities are monotone in loudness. Along `PPPPPP`,
`PPPPP`, `PPPP`, `PPP`, `PP`, `P`, `MP`, `MF`, `F`, `FF`, `FFF`, `FFFF`,
`FFFFF`, `FFFFFF` the base velocity never decreases (each is at most every
later one), and from `PPPPPP` up to `FFFF` it strictly increases; the values
are 1, 5, 10, 16, 33, 49, 64, 80, 96, 112, 126, 127, 127, 127, and the
sequence is the rows 1 to 14 of the table. -/
theorem baseVelocities_monotone :
    (baseVelocities loudnessOrder).Pairwise (fun a b => a ≤ b)
    ∧ (baseVelocities (loudnessOrder.take 12)).Pairwise (fun a b => a < b)
    ∧ loudnessOrder.take 12
        = [DynamicType.PPPPPP, .PPPPP, .PPPP, .PPP, .PP, .P, .MP, .MF, .F, .FF, .FFF, .FFFF]
    ∧ baseVelocities loudnessOrder
        = [1, 5, 10, 16, 33, 49, 64, 80, 96, 112, 126, 127, 127, 127]
    ∧ loudnessOrder = ((dynList.drop 1).take 14).map (fun e => e.type)
    ∧ (∀ (i j : Nat) (a b : DynamicType), i < j →
        loudnessOrder[i]? = some a → loudnessOrder[j]? = some b →
        (dynEntry a).velocity ≤ (dynEntry b).velocity
        ∧ (j < 12 → (dynEntry a).velocity < (dynEntry b).velocity)) := by
  have hvals : baseVelocities loudnessOrder
      = [1, 5, 10, 16, 33, 49, 64, 80, 96, 112, 126, 127, 127, 127] := by decide
  refine ⟨by rw [hvals]; decide, by decide, rfl, hvals, by decide, ?_⟩
  intro i j a b hij ha hb
  have hj : j < 14 := by
    have := (List.getElem?_eq_some.mp hb).1
    simpa [loudnessOrder] using this
  have hi : i < 14 := by omega
  interval_cases j <;> interval_cases i <;>
    first
      | omega
      | (simp [loudnessOrder] at ha hb
         subst ha
         subst hb
         decide)

end Ms
